import Mathlib

set_option autoImplicit false

/-!
Shallow embedding of the ZTNET member reconciliation and lifecycle logic:
the `networkMemberRouter` procedures (`create`, `Update`, `stash`, `delete`,
`bulkDeleteStashed`, `UpdateDatabaseOnly`) from
`src/server/api/routers/memberRouter.ts`, and the member merging of
`getNetworkById` plus the member counting of `getUserNetworks` from the
network router.  Database tables are lists of records, the external ZeroTier
controller and the notification side-effects are recorded as an event trace,
and the success of controller calls and webhooks is injected through boolean
parameters.
-/

namespace ZtNet

/-- Database row of the `network_members` Prisma model (`prisma/schema.prisma`).
Timestamps, `physicalAddress`, `online`, `address` and the `nodeid` surrogate
key are omitted: the verified logic never branches on them.  The nullable
booleans `authorized`, `deleted` and `permanentlyDeleted` default to `false`
in the schema and are only ever written with concrete booleans, so they are
embedded as `Bool`. -/
structure Member where
  id : String
  nwid : String
  authorized : Bool
  deleted : Bool
  permanentlyDeleted : Bool
  name : Option String
  description : Option String
deriving Repr, DecidableEq

/-- Database row of the `network` Prisma model: the ownership fields used by
the lifecycle logic (`authorId` for personal networks, `organizationId` for
organization networks). -/
structure Network where
  nwid : String
  authorId : Option String
  organizationId : Option String
deriving Repr, DecidableEq

/-- A controller-reported member as returned by `syncMemberPeersAndStatus`.
The merging logic of `getNetworkById` only ever inspects its `id`; all other
controller fields travel through the merge untouched, so they are not
modelled. -/
structure CtrlMember where
  id : String
deriving Repr, DecidableEq

/-- One entry of the `mergedMembersMap` of `getNetworkById`
(network router, merging logic): either a database row merged with the
controller data (`\x7b...controllerMember, ...member\x7d`, database fields
taking precedence), a database-only row, or a controller-only member. -/
inductive MergedEntry where
  | merged (ctrl : CtrlMember) (db : Member)
  | dbOnly (db : Member)
  | ctrlOnly (ctrl : CtrlMember)
deriving Repr, DecidableEq

/-- The database row carried by a merged entry, when there is one. -/
def MergedEntry.dbRow : MergedEntry → Option Member
  | .merged _ db => some db
  | .dbOnly db => some db
  | .ctrlOnly _ => none

/-- Whether the database row behind a merged entry is permanently deleted. -/
def MergedEntry.rowPermanentlyDeleted : MergedEntry → Bool
  | .merged _ db => db.permanentlyDeleted
  | .dbOnly db => db.permanentlyDeleted
  | .ctrlOnly _ => false

/-- JavaScript `Map.set` on an insertion-ordered association list: an existing
key keeps its position and receives the new value, a fresh key is appended. -/
def mapSet (k : String) (v : MergedEntry) :
    List (String × MergedEntry) → List (String × MergedEntry)
  | [] => [(k, v)]
  | (k1, v1) :: rest => if k1 = k then (k, v) :: rest else (k1, v1) :: mapSet k v rest

/-- First loop of the merge in `getNetworkById`: every database member is
looked up among the controller members; non-deleted rows are put into the map
(merged with the controller record when the controller reports them), stashed
rows are deliberately skipped. -/
def addDatabaseMembers (ctrl : List CtrlMember) :
    List Member → List (String × MergedEntry) → List (String × MergedEntry)
  | [], acc => acc
  | member :: rest, acc =>
    let controllerMember := ctrl.find? (fun c => c.id == member.id)
    let acc1 := match controllerMember, member.deleted with
      | some c, false => mapSet member.id (MergedEntry.merged c member) acc
      | none, false => mapSet member.id (MergedEntry.dbOnly member) acc
      | _, true => acc
    addDatabaseMembers ctrl rest acc1

/-- The pre-fetched `permanentlyDeletedMemberIds` set of `getNetworkById`:
identifiers of the network's rows with `permanentlyDeleted = true`. -/
def permanentlyDeletedMemberIds (db : List Member) : List String :=
  (db.filter (fun m => m.permanentlyDeleted)).map (fun m => m.id)

/-- Second loop of the merge: controller members with no database row at all
are added as new members, unless their identifier is in the
permanently-deleted set. -/
def addControllerMembers (db : List Member) :
    List CtrlMember → List (String × MergedEntry) → List (String × MergedEntry)
  | [], acc => acc
  | member :: rest, acc =>
    let acc1 :=
      if db.any (fun d => d.id == member.id) then acc
      else if (permanentlyDeletedMemberIds db).contains member.id then acc
      else mapSet member.id (MergedEntry.ctrlOnly member) acc
    addControllerMembers db rest acc1

/-- The merged member list returned by `getNetworkById` for one network,
given the network's full database row set and the controller-reported
members. -/
def mergedMembers (db : List Member) (ctrl : List CtrlMember) : List MergedEntry :=
  (addControllerMembers db ctrl (addDatabaseMembers ctrl db [])).map Prod.snd

/-- The `zombieMembers` collection of `getNetworkById`: stashed but not
permanently deleted rows, surfaced separately from the merged list. -/
def zombieMembers (db : List Member) : List Member :=
  db.filter (fun m => m.deleted && !m.permanentlyDeleted)

/-- The relevant tables of the relational store: the `network` rows and the
`network_members` rows (of all networks).  The `(id, nwid)` pair of a member
row is unique (`@@unique([id, nwid])` in the schema); theorems that need
uniqueness take it as a hypothesis. -/
structure St where
  networks : List Network
  members : List Member
deriving Repr, DecidableEq

/-- The `UserOptions` fields consulted by the member lifecycle
(`renameNodeGlobally` and `addMemberIdAsName`, both defaulting to `false`). -/
structure UserOptions where
  renameNodeGlobally : Bool
  addMemberIdAsName : Bool
deriving Repr, DecidableEq

/-- The body of the `Update` procedure's `updateParams` input (and of the
payload forwarded to the controller); absent optional fields are `none`. -/
structure UpdateParams where
  name : Option String := none
  description : Option String := none
  activeBridge : Option Bool := none
  noAutoAssignIps : Option Bool := none
  ipAssignments : Option (List String) := none
  authorized : Option Bool := none
  capabilities : Option (List Nat) := none
  tags : Option (List (Nat × Nat)) := none
deriving Repr, DecidableEq

/-- Observable side effects of a lifecycle procedure, in program order:
activity-log inserts, ZeroTier controller calls, database member writes,
webhooks and organization admin notifications. -/
inductive Event where
  | activityLog
  | ctrlUpdate (nwid memberId : String) (params : UpdateParams)
  | ctrlDelete (nwid memberId : String)
  | dbMemberUpdate (nwid memberId : String)
  | dbMemberCreate (nwid memberId : String)
  | dbMemberDelete (nwid memberId : String)
  | dbStash (nwid memberId : String)
  | dbPermDelete (nwid memberId : String)
  | dbBulkPermDelete (nwid : String)
  | webhook (hook : String)
  | orgNotify (evt : String)
deriving Repr, DecidableEq

/-- The per-request environment: the session user, their `UserOptions` row,
the `OrganizationSettings` rows (`renameNodeGlobally` keyed by organization
id), and the `isValidIP` predicate.  `isValidIP` lives in
`src/server/api/utils/ipUtils.ts`, which is not part of the sources at hand;
it is therefore kept abstract — every theorem below holds for an arbitrary
validity predicate. -/
structure Env where
  userId : String
  userOptions : UserOptions
  orgSettings : List (String × Bool)
  validIP : String → Bool

/-- Result of one lifecycle procedure: the database state when the procedure
returns (or when the thrown error leaves the handler), the side-effect trace
up to that point, and the error, if one was thrown. -/
structure OpResult where
  st : St
  events : List Event
  error : Option String
deriving Repr

/-- `OrganizationSettings.renameNodeGlobally` lookup by organization id. -/
def orgSettingFind (os : List (String × Bool)) (orgId : String) : Option Bool :=
  (os.find? (fun p => p.1 == orgId)).map (fun p => p.2)

/-- The unique member row for `(id, nwid)`, as found by
`prisma.network_members.findUnique(\x7b where: \x7b id_nwid ... \x7d \x7d)`. -/
def memberRow (st : St) (id nwid : String) : Option Member :=
  st.members.find? (fun m => m.id == id && m.nwid == nwid)

/-- Number of member rows stored for one `(id, nwid)` pair. -/
def countPair (ms : List Member) (id nwid : String) : Nat :=
  (ms.filter (fun m => m.id == id && m.nwid == nwid)).length

/-- The `nwid_ref` relation filter of the personal-scope queries: the member's
network exists, belongs to the session user and has no organization. -/
def networkRefPersonal (st : St) (userId : String) (m : Member) : Bool :=
  match st.networks.find? (fun n => n.nwid == m.nwid) with
  | some n => n.authorId == some userId && n.organizationId.isNone
  | none => false

/-- The `nwid_ref` relation filter of the organization-scope queries: the
member's network belongs to the given organization. -/
def networkRefOrg (st : St) (orgId : String) (m : Member) : Bool :=
  match st.networks.find? (fun n => n.nwid == m.nwid) with
  | some n => n.organizationId == some orgId
  | none => false

/-- The `networksWithMember` query of `Update`'s personal global-rename
fan-out: the network ids of all other non-stashed rows of this member in the
session user's personal networks. -/
def personalFanoutTargets (st : St) (userId memberId nwid : String) : List String :=
  (st.members.filter (fun m =>
    m.id == memberId && m.deleted == false && !(m.nwid == nwid) &&
      networkRefPersonal st userId m)).map (fun m => m.nwid)

/-- The `networksWithMember` query of `Update`'s organization global-rename
fan-out. -/
def orgFanoutTargets (st : St) (orgId memberId nwid : String) : List String :=
  (st.members.filter (fun m =>
    m.id == memberId && m.deleted == false && !(m.nwid == nwid) &&
      networkRefOrg st orgId m)).map (fun m => m.nwid)

/-- One `updateMany` of the fan-out loop: rows of this member in the target
network that are not stashed receive the new name (and, in the personal
branch only, the new description when one was provided). -/
def fanoutDbUpdate (memberId networkId : String) (params : UpdateParams)
    (withDesc : Bool) (ms : List Member) : List Member :=
  ms.map (fun m =>
    if m.id == memberId && m.nwid == networkId && m.deleted == false then
      { m with
        name := params.name,
        description :=
          if withDesc && params.description.isSome then params.description
          else m.description }
    else m)

/-- The fan-out loop of `Update`: for every target network, first a controller
`member_update` with the full `updateParams`, then the database
`updateMany`. -/
def applyFanout (memberId : String) (params : UpdateParams) (withDesc : Bool) :
    List String → List Member → List Member × List Event
  | [], ms => (ms, [])
  | t :: ts, ms =>
    let ms1 := fanoutDbUpdate memberId t params withDesc ms
    let r := applyFanout memberId params withDesc ts ms1
    (r.1, Event.ctrlUpdate t memberId params :: Event.dbMemberUpdate t memberId :: r.2)

/-- JavaScript truthiness of `updateParams.name`: present and non-empty. -/
def nameTruthy : Option String → Bool
  | none => false
  | some s => !(s == "")

/-- Input of the `Update` procedure. -/
structure UpdateInput where
  nwid : String
  memberId : String
  organizationId : Option String
  updateParams : UpdateParams
deriving Repr, DecidableEq

/-- The global-rename section of `Update` (run only when `updateParams.name`
is truthy): personal fan-out when the user's `renameNodeGlobally` is on and no
organization id was given; organization fan-out when an organization id was
given and the organization's `renameNodeGlobally` setting (read through an
upsert that creates the default `false` row) is on. -/
def fanoutPhase (env : Env) (inp : UpdateInput) (st : St) : List Member × List Event :=
  match inp.updateParams.name with
  | none => (st.members, [])
  | some s =>
    if s == "" then (st.members, [])
    else if env.userOptions.renameNodeGlobally && inp.organizationId.isNone then
      applyFanout inp.memberId inp.updateParams true
        (personalFanoutTargets st env.userId inp.memberId inp.nwid) st.members
    else
      match inp.organizationId with
      | none => (st.members, [])
      | some orgId =>
        if (orgSettingFind env.orgSettings orgId).getD false then
          applyFanout inp.memberId inp.updateParams false
            (orgFanoutTargets st orgId inp.memberId inp.nwid) st.members
        else (st.members, [])

/-- The invalid entries of `updateParams.ipAssignments`, as filtered by the
validation loop of `Update` (an absent field is not validated). -/
def invalidIPs (validIP : String → Bool) : Option (List String) → List String
  | none => []
  | some l => l.filter (fun ip => !(validIP ip))

/-- The database update of the edited network in `Update`: the fields stored
in the database (`name`, `authorized`, `description`) are written when they
were provided, on the unique `(memberId, nwid)` row. -/
def currentDbUpdateF (inp : UpdateInput) (m : Member) : Member :=
  if m.id == inp.memberId && m.nwid == inp.nwid then
    { m with
      name := match inp.updateParams.name with | some s => some s | none => m.name,
      authorized := inp.updateParams.authorized.getD m.authorized,
      description :=
        match inp.updateParams.description with | some d => some d | none => m.description }
  else m

/-- `Update` up to (but excluding) its trailing webhook: role check, activity
log, global-rename fan-out, `ipAssignments` validation, controller
`member_update` of the edited network (whose rejection is a thrown
`FORBIDDEN`), and the database update of the edited network's row.  `.inl` is
an early exit (a thrown error), `.inr` carries the state and trace into the
webhook tail. -/
def updatePre (env : Env) (roleOk ctrlOk : Bool) (inp : UpdateInput) (st : St) :
    OpResult ⊕ (St × List Event) :=
  if inp.organizationId.isSome && !roleOk then
    .inl { st := st, events := [], error := some "UNAUTHORIZED" }
  else
    let fan := fanoutPhase env inp st
    let st1 : St := { st with members := fan.1 }
    let ev1 := Event.activityLog :: fan.2
    if !(invalidIPs env.validIP inp.updateParams.ipAssignments).isEmpty then
      .inl { st := st1, events := ev1, error := some "Invalid IP addresses provided" }
    else
      let ev2 := ev1 ++ [Event.ctrlUpdate inp.nwid inp.memberId inp.updateParams]
      if !ctrlOk then
        .inl { st := st1, events := ev2,
               error := some "Member does not exist in the network" }
      else
        match st1.members.find? (fun m => m.id == inp.memberId && m.nwid == inp.nwid) with
        | some _ =>
          if inp.updateParams.name.isSome || inp.updateParams.authorized.isSome ||
              inp.updateParams.description.isSome then
            .inr ({ st1 with members := st1.members.map (currentDbUpdateF inp) },
              ev2 ++ [Event.dbMemberUpdate inp.nwid inp.memberId])
          else .inr (st1, ev2)
        | none => .inr (st1, ev2)

/-- The `Update` procedure of the member router (non-central path): the
pre-webhook phase, then the `MEMBER_CONFIG_CHANGED` webhook (whose failure is
rethrown by `throwError`), then the organization admin `NODE_DELETED`
notification for de-authorizations (whose failure is swallowed). -/
def Update (env : Env) (roleOk ctrlOk webhookOk : Bool) (inp : UpdateInput) (st : St) :
    OpResult :=
  match updatePre env roleOk ctrlOk inp st with
  | .inl r => r
  | .inr (st2, ev) =>
    let ev4 := ev ++ [Event.webhook "MEMBER_CONFIG_CHANGED"]
    if !webhookOk then
      { st := st2, events := ev4, error := some "Failed to send webhook" }
    else
      let ev5 := ev4 ++
        (match inp.organizationId, inp.updateParams.authorized with
          | some _, some false => [Event.orgNotify "NODE_DELETED"]
          | _, _ => [])
      { st := st2, events := ev5, error := none }

/-- Input of the `create` procedure. -/
structure CreateInput where
  organizationId : Option String
  id : String
  nwid : String
deriving Repr, DecidableEq

/-- Name determination of `create` for an already existing row: with global
naming on, the name of another non-stashed row of the same member in the same
ownership scope (when that row has a truthy name); with global naming off,
the member id when `addMemberIdAsName` is on; the row's current name
otherwise. -/
def existingMemberName (env : Env) (inp : CreateInput) (st : St) (member : Member) :
    Option String :=
  if env.userOptions.renameNodeGlobally then
    match inp.organizationId with
    | none =>
      match st.members.find? (fun m =>
          m.id == inp.id && m.deleted == false && networkRefPersonal st env.userId m &&
          !(m.nwid == inp.nwid) && m.name.isSome) with
      | some em =>
        match em.name with
        | some n => if n == "" then member.name else some n
        | none => member.name
      | none => member.name
    | some orgId =>
      if (orgSettingFind env.orgSettings orgId).getD false then
        match st.members.find? (fun m =>
            m.id == inp.id && m.deleted == false && networkRefOrg st orgId m &&
            !(m.nwid == inp.nwid) && m.name.isSome) with
        | some em =>
          match em.name with
          | some n => if n == "" then member.name else some n
          | none => member.name
        | none => member.name
      else member.name
  else
    if env.userOptions.addMemberIdAsName then some inp.id else member.name

/-- Name determination of `create` for a brand-new row: with global naming on,
the name of a non-stashed row of the same member in the same ownership scope
(this query has no current-network exclusion); falling back to the member id
when `addMemberIdAsName` is on. -/
def newMemberName (env : Env) (inp : CreateInput) (st : St) : Option String :=
  let fromGlobal : Option String :=
    if env.userOptions.renameNodeGlobally then
      match inp.organizationId with
      | none =>
        match st.members.find? (fun m =>
            m.id == inp.id && m.deleted == false && networkRefPersonal st env.userId m &&
            m.name.isSome) with
        | some em =>
          match em.name with
          | some n => if n == "" then none else some n
          | none => none
        | none => none
      | some orgId =>
        if (orgSettingFind env.orgSettings orgId).getD false then
          match st.members.find? (fun m =>
              m.id == inp.id && m.deleted == false && networkRefOrg st orgId m &&
              m.name.isSome) with
          | some em =>
            match em.name with
            | some n => if n == "" then none else some n
            | none => none
          | none => none
        else none
    else none
  match fromGlobal with
  | some n => some n
  | none => if env.userOptions.addMemberIdAsName then some inp.id else none

/-- The `create` procedure (non-central path).  When a row for `(id, nwid)`
already exists it is updated in place with `deleted := false` and
`permanentlyDeleted := false` and the determined name; otherwise the
`NETWORK_JOIN` webhook is sent first (its failure is rethrown by `throwError`,
aborting the procedure before the insert), then the new row is inserted with
the schema defaults. -/
def create (env : Env) (roleOk webhookOk : Bool) (inp : CreateInput) (st : St) :
    OpResult :=
  if inp.organizationId.isSome && !roleOk then
    { st := st, events := [], error := some "UNAUTHORIZED" }
  else
    let ev0 : List Event := [Event.activityLog]
    match st.members.find? (fun m => m.id == inp.id && m.nwid == inp.nwid) with
    | some member =>
      let memberName := existingMemberName env inp st member
      let ms1 := st.members.map (fun m =>
        if m.id == inp.id && m.nwid == inp.nwid then
          { m with deleted := false, permanentlyDeleted := false, name := memberName }
        else m)
      let ev1 := ev0 ++ [Event.dbMemberUpdate inp.nwid inp.id] ++
        (if inp.organizationId.isSome then [Event.orgNotify "NODE_ADDED"] else [])
      { st := { st with members := ms1 }, events := ev1, error := none }
    | none =>
      let ev1 := ev0 ++ [Event.webhook "NETWORK_JOIN"]
      if !webhookOk then
        { st := st, events := ev1, error := some "Failed to send webhook" }
      else if st.networks.any (fun n => n.nwid == inp.nwid) then
        let newRow : Member :=
          { id := inp.id, nwid := inp.nwid, authorized := false, deleted := false,
            permanentlyDeleted := false, name := newMemberName env inp st,
            description := none }
        let ev2 := ev1 ++ [Event.dbMemberCreate inp.nwid inp.id] ++
          (if inp.organizationId.isSome then [Event.orgNotify "NODE_ADDED"] else [])
        { st := { st with members := st.members ++ [newRow] }, events := ev2,
          error := none }
      else
        { st := st, events := ev1, error := some "Network to connect not found" }

/-- Input of the `stash` and `delete` procedures. -/
structure StashInput where
  organizationId : Option String
  nwid : String
  id : String
deriving Repr, DecidableEq

/-- The de-authorization parameters `stash` passes to `Update`:
`authorized := false` with `ipAssignments`, `tags` and `capabilities`
cleared. -/
def stashUpdateParams : UpdateParams :=
  { authorized := some false, ipAssignments := some [], tags := some [],
    capabilities := some [] }

/-- The database write of `stash`: the member's row of the network is marked
`deleted := true`, nothing else changes. -/
def stashDbF (id nwid : String) (m : Member) : Member :=
  if m.id == id && m.nwid == nwid then { m with deleted := true } else m

/-- The `stash` procedure: de-authorize through `caller.Update` inside a
`try/catch` that swallows any error, then mark the row `deleted := true`
(through a `network.update` whose failure is also swallowed by `.catch`),
then the `MEMBER_CONFIG_CHANGED` webhook (whose failure is rethrown). -/
def stash (env : Env) (roleOk innerCtrlOk innerWebhookOk webhookOk : Bool)
    (inp : StashInput) (st : St) : OpResult :=
  if inp.organizationId.isSome && !roleOk then
    { st := st, events := [], error := some "UNAUTHORIZED" }
  else
    let inner := Update env roleOk innerCtrlOk innerWebhookOk
      { nwid := inp.nwid, memberId := inp.id, organizationId := inp.organizationId,
        updateParams := stashUpdateParams } st
    let ev1 := Event.activityLog :: inner.events
    let stashed :=
      if inner.st.networks.any (fun n => n.nwid == inp.nwid) then
        (inner.st.members.map (stashDbF inp.id inp.nwid),
          ev1 ++ [Event.dbStash inp.nwid inp.id])
      else (inner.st.members, ev1)
    let ev3 := stashed.2 ++ [Event.webhook "MEMBER_CONFIG_CHANGED"]
    let st2 : St := { inner.st with members := stashed.1 }
    if !webhookOk then
      { st := st2, events := ev3, error := some "Failed to send webhook" }
    else { st := st2, events := ev3, error := none }

/-- The `delete` procedure (non-central path): a member that is not stashed is
first removed from the controller (a rejection there is thrown), then either
the stashed row is kept and marked `permanentlyDeleted := true`, or the
active row is deleted from the database outright, followed by the
`MEMBER_DELETED` webhook on the active path only. -/
def delete (_env : Env) (roleOk ctrlOk webhookOk : Bool) (inp : StashInput) (st : St) :
    OpResult :=
  if inp.organizationId.isSome && !roleOk then
    { st := st, events := [], error := some "UNAUTHORIZED" }
  else
    let ev0 : List Event := [Event.activityLog]
    let existingMember := st.members.find? (fun m => m.id == inp.id && m.nwid == inp.nwid)
    let notStashed : Bool := match existingMember with
      | some m => m.deleted == false
      | none => true
    let ev1 := if notStashed then ev0 ++ [Event.ctrlDelete inp.nwid inp.id] else ev0
    if notStashed && !ctrlOk then
      { st := st, events := ev1, error := some "Controller rejected member delete" }
    else
      match existingMember with
      | some m =>
        if m.deleted then
          let ms := st.members.map (fun x =>
            if x.id == inp.id && x.nwid == inp.nwid then
              { x with permanentlyDeleted := true }
            else x)
          let ev2 := ev1 ++ [Event.dbPermDelete inp.nwid inp.id] ++
            (if inp.organizationId.isSome then [Event.orgNotify "NODE_PERMANENTLY_DELETED"]
             else [])
          { st := { st with members := ms }, events := ev2, error := none }
        else
          let ms := st.members.filter (fun x => !(x.id == inp.id && x.nwid == inp.nwid))
          let ev2 := ev1 ++ [Event.dbMemberDelete inp.nwid inp.id] ++
            (if inp.organizationId.isSome then [Event.orgNotify "NODE_PERMANENTLY_DELETED"]
             else [])
          let ev3 := ev2 ++ [Event.webhook "MEMBER_DELETED"]
          if !webhookOk then
            { st := { st with members := ms }, events := ev3,
              error := some "Failed to send webhook" }
          else { st := { st with members := ms }, events := ev3, error := none }
      | none =>
        { st := st, events := ev1, error := some "Record to delete does not exist" }

/-- Input of the `bulkDeleteStashed` procedure. -/
structure BulkInput where
  nwid : String
  organizationId : Option String
deriving Repr, DecidableEq

/-- The member-table effect of `bulkDeleteStashed`: find the stashed rows of
the network; when there are none return unchanged, otherwise `updateMany`
setting `permanentlyDeleted := true` on the rows of the network whose id is
among the found ones and that are still stashed. -/
def bulkMembers (nwid : String) (ms : List Member) : List Member :=
  let membersToDelete := ms.filter (fun m => m.nwid == nwid && m.deleted == true)
  if membersToDelete.isEmpty then ms
  else
    let memberIds := membersToDelete.map (fun m => m.id)
    ms.map (fun m =>
      if m.nwid == nwid && memberIds.contains m.id && m.deleted == true then
        { m with permanentlyDeleted := true }
      else m)

/-- The body of `bulkDeleteStashed` once the network is located: when there
are no stashed members, return with a zero count; otherwise mark every
stashed member of the network permanently deleted, log, and send the bulk
webhook (whose failure the source catches and swallows, so it is not
parametrized). -/
def bulkCore (nwid : String) (st : St) : OpResult :=
  if (st.members.filter (fun m => m.nwid == nwid && m.deleted == true)).isEmpty then
    { st := st, events := [], error := none }
  else
    { st := { st with members := bulkMembers nwid st.members },
      events := [Event.dbBulkPermDelete nwid, Event.activityLog,
        Event.webhook "MEMBER_DELETED"],
      error := none }

/-- The `bulkDeleteStashed` procedure: for an organization network the
caller's organization membership is checked and the network looked up within
the organization, for a personal network ownership is checked through the
lookup itself; a missing network is `NOT_FOUND`. -/
def bulkDeleteStashed (env : Env) (roleOk : Bool) (inp : BulkInput) (st : St) :
    OpResult :=
  match inp.organizationId with
  | some orgId =>
    if !roleOk then { st := st, events := [], error := some "UNAUTHORIZED" }
    else
      match st.networks.find? (fun n => n.nwid == inp.nwid &&
          n.organizationId == some orgId) with
      | none =>
        { st := st, events := [], error := some "Network not found or access denied." }
      | some _ => bulkCore inp.nwid st
  | none =>
    match st.networks.find? (fun n => n.nwid == inp.nwid &&
        n.authorId == some env.userId) with
    | none =>
      { st := st, events := [], error := some "Network not found or access denied." }
    | some _ => bulkCore inp.nwid st

/-- The `UpdateDatabaseOnly` procedure's member write: the unique `(id, nwid)`
row receives the provided `deleted` and `description` fields, nothing else is
touched (in particular `permanentlyDeleted` is left as it was). -/
def updateDatabaseOnly (nwid id : String) (deletedParam : Option Bool)
    (descriptionParam : Option String) (st : St) : St :=
  { st with members := st.members.map (fun m =>
      if m.id == id && m.nwid == nwid then
        { m with
          deleted := deletedParam.getD m.deleted,
          description :=
            match descriptionParam with | some d => some d | none => m.description }
      else m) }

/-- The `memberCounts` object computed by `getUserNetworks` for one network
from its `networkMembers` rows. -/
structure MemberCounts where
  authorized : Nat
  total : Nat
  display : String
deriving Repr, DecidableEq

/-- Member counting of `getUserNetworks`: authorized non-deleted rows, all
non-deleted rows, and the `authorized (total)` display string. -/
def memberCounts (networkMembers : List Member) : MemberCounts :=
  let authorizedCount := (networkMembers.filter (fun m => m.authorized && !m.deleted)).length
  let totalCount := (networkMembers.filter (fun m => !m.deleted)).length
  { authorized := authorizedCount, total := totalCount,
    display := toString authorizedCount ++ " (" ++ toString totalCount ++ ")" }

/-- The `getUserNetworks` query (non-central path): the session user's own
networks, each with its member counts computed from its member rows. -/
def getUserNetworks (st : St) (userId : String) : List (Network × MemberCounts) :=
  (st.networks.filter (fun n => n.authorId == some userId)).map
    (fun n => (n, memberCounts (st.members.filter (fun m => m.nwid == n.nwid))))

/-! ### Concrete fixtures used by counterexamples and witnesses -/

/-- A request environment with all optional behavior off and every IP valid. -/
def plainEnv : Env :=
  { userId := "u1",
    userOptions := { renameNodeGlobally := false, addMemberIdAsName := false },
    orgSettings := [], validIP := fun _ => true }

/-- An environment with personal global naming on and every IP valid. -/
def renameEnv : Env :=
  { userId := "u1",
    userOptions := { renameNodeGlobally := true, addMemberIdAsName := false },
    orgSettings := [], validIP := fun _ => true }

/-- An environment with personal global naming on whose IP validator rejects
every string. -/
def renameBadIpEnv : Env :=
  { userId := "u1",
    userOptions := { renameNodeGlobally := true, addMemberIdAsName := false },
    orgSettings := [], validIP := fun _ => false }

/-- An active, authorized member row of network `n1`. -/
def c1Row : Member :=
  { id := "aa11bb22cc", nwid := "n1", authorized := true, deleted := false,
    permanentlyDeleted := false, name := some "laptop", description := none }

/-- One personal network `n1` of user `u1` with the single member `c1Row`. -/
def c1St : St :=
  { networks := [{ nwid := "n1", authorId := some "u1", organizationId := none }],
    members := [c1Row] }

/-- A network row set satisfying the lifecycle invariant: one permanently
deleted (and stashed) member and one active member. -/
def c1DbW : List Member :=
  [{ id := "aaaaaaaaaa", nwid := "n1", authorized := false, deleted := true,
     permanentlyDeleted := true, name := none, description := none },
   { id := "bbbbbbbbbb", nwid := "n1", authorized := true, deleted := false,
     permanentlyDeleted := false, name := some "pc", description := none }]

/-- Controller-reported members for the same network: the permanently deleted
one (still reconnecting), the active one, and an unknown newcomer. -/
def c1CtrlW : List CtrlMember :=
  [{ id := "aaaaaaaaaa" }, { id := "bbbbbbbbbb" }, { id := "cccccccccc" }]

/-- Two member rows of network `n2`: one active, one stashed. -/
def c2St : St :=
  { networks := [{ nwid := "n2", authorId := some "u1", organizationId := none }],
    members :=
      [{ id := "1111111111", nwid := "n2", authorized := true, deleted := false,
         permanentlyDeleted := false, name := some "active", description := none },
       { id := "2222222222", nwid := "n2", authorized := false, deleted := true,
         permanentlyDeleted := false, name := some "stashed", description := none }] }

/-- A stashed and permanently deleted member row of network `n3`. -/
def c3St : St :=
  { networks := [{ nwid := "n3", authorId := some "u1", organizationId := none }],
    members :=
      [{ id := "3333333333", nwid := "n3", authorized := false, deleted := true,
         permanentlyDeleted := true, name := some "zombie", description := none }] }

/-- A stashed member row of network `n4` (a re-add candidate). -/
def c4St : St :=
  { networks := [{ nwid := "n4", authorId := some "u1", organizationId := none }],
    members :=
      [{ id := "4444444444", nwid := "n4", authorized := false, deleted := true,
         permanentlyDeleted := false, name := some "old", description := none }] }

/-- Network `n5` with one stashed, one active and one already permanently
deleted member, plus a stashed member of another network `n6`. -/
def c5St : St :=
  { networks := [{ nwid := "n5", authorId := some "u1", organizationId := none },
                 { nwid := "n6", authorId := some "u1", organizationId := none }],
    members :=
      [{ id := "5151515151", nwid := "n5", authorized := false, deleted := true,
         permanentlyDeleted := false, name := none, description := none },
       { id := "5252525252", nwid := "n5", authorized := true, deleted := false,
         permanentlyDeleted := false, name := some "keep", description := none },
       { id := "5353535353", nwid := "n5", authorized := false, deleted := true,
         permanentlyDeleted := true, name := none, description := none },
       { id := "5454545454", nwid := "n6", authorized := false, deleted := true,
         permanentlyDeleted := false, name := none, description := none }] }

/-- Two personal networks of `u1` both containing member `6666666666`. -/
def c6St : St :=
  { networks := [{ nwid := "n61", authorId := some "u1", organizationId := none },
                 { nwid := "n62", authorId := some "u1", organizationId := none }],
    members :=
      [{ id := "6666666666", nwid := "n61", authorized := true, deleted := false,
         permanentlyDeleted := false, name := some "laptop", description := none },
       { id := "6666666666", nwid := "n62", authorized := true, deleted := false,
         permanentlyDeleted := false, name := some "laptop", description := none }] }

/-- A rename of member `6666666666` on network `n61`. -/
def c6Inp : UpdateInput :=
  { nwid := "n61", memberId := "6666666666", organizationId := none,
    updateParams := { name := some "desktop" } }

/-- Network `n7` of user `u1` with no member rows yet. -/
def c7St : St :=
  { networks := [{ nwid := "n7", authorId := some "u1", organizationId := none }],
    members := [] }

/-- The member row of `n7` in `c7StExisting`, a stashed row to be re-added. -/
def c7StExisting : St :=
  { networks := [{ nwid := "n7", authorId := some "u1", organizationId := none }],
    members :=
      [{ id := "7777777777", nwid := "n7", authorized := false, deleted := true,
         permanentlyDeleted := false, name := some "seven", description := none }] }

/-- Two personal networks of `u1` both containing member `8888888888`,
used to exercise the fan-out-before-validation path. -/
def c8St : St :=
  { networks := [{ nwid := "n81", authorId := some "u1", organizationId := none },
                 { nwid := "n82", authorId := some "u1", organizationId := none }],
    members :=
      [{ id := "8888888888", nwid := "n81", authorized := true, deleted := false,
         permanentlyDeleted := false, name := some "laptop", description := none },
       { id := "8888888888", nwid := "n82", authorized := true, deleted := false,
         permanentlyDeleted := false, name := some "laptop", description := none }] }

/-- A rename of member `8888888888` on `n81` carrying a malformed
`ipAssignments` entry. -/
def c8Inp : UpdateInput :=
  { nwid := "n81", memberId := "8888888888", organizationId := none,
    updateParams := { name := some "desktop", ipAssignments := some ["not-an-ip"] } }

/-- Network `n9` with one active authorized member, about to be stashed. -/
def c9St : St :=
  { networks := [{ nwid := "n9", authorId := some "u1", organizationId := none }],
    members :=
      [{ id := "9999999999", nwid := "n9", authorized := true, deleted := false,
         permanentlyDeleted := false, name := some "nine", description := none }] }

/-- Network `n10` of `u1` whose only member row is permanently deleted but not
stashed (`deleted = false`, `permanentlyDeleted = true`). -/
def c10St : St :=
  { networks := [{ nwid := "n10", authorId := some "u1", organizationId := none }],
    members :=
      [{ id := "1010101010", nwid := "n10", authorized := true, deleted := false,
         permanentlyDeleted := true, name := none, description := none }] }

/-- Network `n11` of `u1` with a well-formed roster: one authorized active
member, one unauthorized active member, one stashed member, one permanently
deleted (stashed) member. -/
def c10StW : St :=
  { networks := [{ nwid := "n11", authorId := some "u1", organizationId := none }],
    members :=
      [{ id := "1101101101", nwid := "n11", authorized := true, deleted := false,
         permanentlyDeleted := false, name := none, description := none },
       { id := "1102102102", nwid := "n11", authorized := false, deleted := false,
         permanentlyDeleted := false, name := none, description := none },
       { id := "1103103103", nwid := "n11", authorized := true, deleted := true,
         permanentlyDeleted := false, name := none, description := none },
       { id := "1104104104", nwid := "n11", authorized := true, deleted := true,
         permanentlyDeleted := true, name := none, description := none }] }

/-! ### Helper lemmas -/

theorem contains_iff_mem (l : List String) (a : String) : l.contains a = true ↔ a ∈ l := by
  induction l with
  | nil => simp [List.contains]
  | cons h t ih =>
    simp only [List.contains, List.elem_cons]
    constructor
    · intro hc
      by_cases he : a = h
      · exact he ▸ List.mem_cons_self h t
      · have : (a == h) = false := beq_false_of_ne he
        rw [this] at hc
        exact List.mem_cons_of_mem h ((List.elem_iff).mp hc)
    · intro hm
      rcases List.mem_cons.mp hm with he | ht
      · simp [he]
      · by_cases he2 : a = h
        · simp [he2]
        · have : (a == h) = false := beq_false_of_ne he2
          rw [this]
          exact (List.elem_iff).mpr ht

theorem mem_mapSet {l : List (String × MergedEntry)} {k : String} {v : MergedEntry}
    {kv : String × MergedEntry} (h : kv ∈ mapSet k v l) : kv = (k, v) ∨ kv ∈ l := by
  induction l with
  | nil => simpa [mapSet] using h
  | cons p rest ih =>
    obtain ⟨k1, v1⟩ := p
    by_cases hk : k1 = k
    · simp only [mapSet, if_pos hk] at h
      rcases List.mem_cons.mp h with h1 | h1
      · exact Or.inl h1
      · exact Or.inr (List.mem_cons_of_mem _ h1)
    · simp only [mapSet, if_neg hk] at h
      rcases List.mem_cons.mp h with h1 | h1
      · exact Or.inr (h1 ▸ List.mem_cons_self _ _)
      · rcases ih h1 with h2 | h2
        · exact Or.inl h2
        · exact Or.inr (List.mem_cons_of_mem _ h2)

theorem mem_addDatabaseMembers {ctrl : List CtrlMember} {db : List Member}
    {acc : List (String × MergedEntry)} {kv : String × MergedEntry}
    (h : kv ∈ addDatabaseMembers ctrl db acc) :
    kv ∈ acc ∨ ∃ member ∈ db, member.deleted = false ∧
      (kv.2 = MergedEntry.dbOnly member ∨ ∃ c, kv.2 = MergedEntry.merged c member) := by
  induction db generalizing acc with
  | nil => exact Or.inl (by simpa [addDatabaseMembers] using h)
  | cons member rest ih =>
    rw [addDatabaseMembers] at h
    rcases ih h with h1 | h1
    · revert h1
      cases hf : ctrl.find? (fun c => c.id == member.id) with
      | some c =>
        cases hd : member.deleted with
        | false =>
          intro h1
          simp only [hf, hd] at h1
          rcases mem_mapSet h1 with h2 | h2
          · exact Or.inr ⟨member, List.mem_cons_self _ _, hd, Or.inr ⟨c, by simp [h2]⟩⟩
          · exact Or.inl h2
        | true =>
          intro h1
          simp only [hf, hd] at h1
          exact Or.inl h1
      | none =>
        cases hd : member.deleted with
        | false =>
          intro h1
          simp only [hf, hd] at h1
          rcases mem_mapSet h1 with h2 | h2
          · exact Or.inr ⟨member, List.mem_cons_self _ _, hd, Or.inl (by simp [h2])⟩
          · exact Or.inl h2
        | true =>
          intro h1
          simp only [hf, hd] at h1
          exact Or.inl h1
    · obtain ⟨m1, hm1, hd1, hshape⟩ := h1
      exact Or.inr ⟨m1, List.mem_cons_of_mem _ hm1, hd1, hshape⟩

theorem mem_addControllerMembers {db : List Member} {ctrl : List CtrlMember}
    {acc : List (String × MergedEntry)} {kv : String × MergedEntry}
    (h : kv ∈ addControllerMembers db ctrl acc) :
    kv ∈ acc ∨ ∃ c ∈ ctrl, kv.2 = MergedEntry.ctrlOnly c ∧
      db.any (fun d => d.id == c.id) = false ∧
      (permanentlyDeletedMemberIds db).contains c.id = false := by
  induction ctrl generalizing acc with
  | nil => exact Or.inl (by simpa [addControllerMembers] using h)
  | cons member rest ih =>
    rw [addControllerMembers] at h
    rcases ih h with h1 | h1
    · revert h1
      cases ha : db.any (fun d => d.id == member.id) with
      | true => intro h1; simp only [ha, if_true] at h1; exact Or.inl h1
      | false =>
        cases hp : (permanentlyDeletedMemberIds db).contains member.id with
        | true => intro h1; simp only [ha, hp] at h1; exact Or.inl h1
        | false =>
          intro h1
          simp only [ha, hp, Bool.false_eq_true, if_false] at h1
          rcases mem_mapSet h1 with h2 | h2
          · exact Or.inr ⟨member, List.mem_cons_self _ _, by simp [h2], ha, hp⟩
          · exact Or.inl h2
    · obtain ⟨c, hc, hshape, ha, hp⟩ := h1
      exact Or.inr ⟨c, List.mem_cons_of_mem _ hc, hshape, ha, hp⟩

theorem find?_key_map (id nwid : String) (f : Member → Member)
    (hf : ∀ m, (f m).id = m.id ∧ (f m).nwid = m.nwid) (ms : List Member) :
    (ms.map f).find? (fun m => m.id == id && m.nwid == nwid) =
      (ms.find? (fun m => m.id == id && m.nwid == nwid)).map f := by
  induction ms with
  | nil => simp
  | cons m rest ih =>
    have hpe : ((f m).id == id && (f m).nwid == nwid) = (m.id == id && m.nwid == nwid) := by
      rw [(hf m).1, (hf m).2]
    cases h : (m.id == id && m.nwid == nwid) with
    | true => simp [List.find?_cons, hpe, h]
    | false => simp [List.find?_cons, hpe, h, ih]

theorem filter_key_map (p : Member → Bool) (f : Member → Member)
    (hpf : ∀ m, p (f m) = p m) (ms : List Member) :
    (ms.map f).filter p = (ms.filter p).map f := by
  rw [List.filter_map]
  congr 1
  exact List.filter_congr (fun m _ => hpf m)

/-- The fan-out loop rewritten as one pointwise map: a row is renamed exactly
when it is this member's non-stashed row in one of the target networks. -/
def fanoutF (memberId : String) (params : UpdateParams) (withDesc : Bool)
    (targets : List String) (m : Member) : Member :=
  if m.id == memberId && m.deleted == false && targets.contains m.nwid then
    { m with
      name := params.name,
      description :=
        if withDesc && params.description.isSome then params.description
        else m.description }
  else m

theorem applyFanout_members (memberId : String) (params : UpdateParams)
    (withDesc : Bool) (targets : List String) (ms : List Member) :
    (applyFanout memberId params withDesc targets ms).1 =
      ms.map (fanoutF memberId params withDesc targets) := by
  induction targets generalizing ms with
  | nil =>
    simp only [applyFanout]
    rw [List.map_congr_left (g := id) ?_, List.map_id]
    intro m _
    simp [fanoutF]
  | cons t ts ih =>
    simp only [applyFanout]
    rw [ih, fanoutDbUpdate, List.map_map]
    apply List.map_congr_left
    intro m _
    simp only [Function.comp]
    by_cases h1 : (m.id == memberId) = true
    · by_cases h2 : (m.deleted == false) = true
      · by_cases h3 : (m.nwid == t) = true
        · have ht : (t :: ts).contains m.nwid = true := by
            rcases beq_iff_eq.mp h3 with rfl
            simp [List.contains_cons]
          simp only [h1, h2, h3, Bool.and_true, Bool.true_and, if_pos rfl, fanoutF, ht]
          simp only [h1, h2, Bool.true_and, Bool.and_true, if_true]
          by_cases h4 : ts.contains m.nwid <;>
            by_cases h5 : (withDesc && params.description.isSome) = true <;>
              simp [h4, h5]
        · have h3f : (m.nwid == t) = false := by simpa using h3
          have e1 : m.id = memberId := beq_iff_eq.mp h1
          have e2 : m.deleted = false := by simpa using h2
          simp only [fanoutF, h1, h2, h3f, Bool.true_and, Bool.and_false,
            Bool.false_eq_true, if_false, List.contains_cons]
          by_cases h4 : ts.contains m.nwid = true
          · have hm4 : m.nwid ∈ ts := (contains_iff_mem ts m.nwid).mp h4
            simp [h3f, e1, e2, hm4]
          · have h4f : ts.contains m.nwid = false := by simpa using h4
            have hm4 : ¬m.nwid ∈ ts := by
              intro hmem
              rw [(contains_iff_mem ts m.nwid).mpr hmem] at h4f
              cases h4f
            simp [h4f, h3f, e1, e2, hm4]
      · have h2f : (m.deleted == false) = false := by simpa using h2
        simp [fanoutF, h1, h2f]
    · have h1f : (m.id == memberId) = false := by simpa using h1
      simp [fanoutF, h1f]

theorem applyFanout_events_mem (memberId : String) (params : UpdateParams)
    (withDesc : Bool) {targets : List String} {t : String} (ht : t ∈ targets)
    (ms : List Member) :
    Event.ctrlUpdate t memberId params ∈
      (applyFanout memberId params withDesc targets ms).2 := by
  induction targets generalizing ms with
  | nil => cases ht
  | cons t0 ts ih =>
    rcases List.mem_cons.mp ht with rfl | hts
    · simp [applyFanout]
    · simp only [applyFanout, List.mem_cons]
      exact Or.inr (Or.inr (ih hts _))

theorem applyFanout_events_shape (memberId : String) (params : UpdateParams)
    (withDesc : Bool) (targets : List String) (ms : List Member) :
    ∀ e ∈ (applyFanout memberId params withDesc targets ms).2,
      ∃ t ∈ targets, e = Event.ctrlUpdate t memberId params ∨
        e = Event.dbMemberUpdate t memberId := by
  induction targets generalizing ms with
  | nil => simp [applyFanout]
  | cons t0 ts ih =>
    intro e he
    simp only [applyFanout, List.mem_cons] at he
    rcases he with rfl | rfl | he
    · exact ⟨t0, List.mem_cons_self _ _, Or.inl rfl⟩
    · exact ⟨t0, List.mem_cons_self _ _, Or.inr rfl⟩
    · obtain ⟨t, htm, hsh⟩ := ih _ e he
      exact ⟨t, List.mem_cons_of_mem _ htm, hsh⟩

theorem personalFanoutTargets_ne (st : St) (userId memberId nwid : String) :
    ∀ t ∈ personalFanoutTargets st userId memberId nwid, t ≠ nwid := by
  intro t ht
  simp only [personalFanoutTargets, List.mem_map] at ht
  obtain ⟨m, hm, rfl⟩ := ht
  have := (List.mem_filter.mp hm).2
  intro hEq
  simp [hEq] at this

theorem orgFanoutTargets_ne (st : St) (orgId memberId nwid : String) :
    ∀ t ∈ orgFanoutTargets st orgId memberId nwid, t ≠ nwid := by
  intro t ht
  simp only [orgFanoutTargets, List.mem_map] at ht
  obtain ⟨m, hm, rfl⟩ := ht
  have := (List.mem_filter.mp hm).2
  intro hEq
  simp [hEq] at this

theorem fanoutF_not_target {memberId : String} {params : UpdateParams} {withDesc : Bool}
    {targets : List String} {m : Member} (h : targets.contains m.nwid = false) :
    fanoutF memberId params withDesc targets m = m := by
  have hc : (m.id == memberId && m.deleted == false && targets.contains m.nwid) = false := by
    rw [h, Bool.and_false]
  simp only [fanoutF, hc, Bool.false_eq_true, if_false]

theorem not_contains_of_ne {targets : List String} {nwid : String}
    (h : ∀ t ∈ targets, t ≠ nwid) : targets.contains nwid = false := by
  cases hc : targets.contains nwid with
  | false => rfl
  | true => exact absurd rfl (h nwid ((contains_iff_mem targets nwid).mp hc))

theorem fanoutPhase_disabled_personal (env : Env) (inp : UpdateInput) (st : St)
    (horg : inp.organizationId = none)
    (hrng : env.userOptions.renameNodeGlobally = false) :
    fanoutPhase env inp st = (st.members, []) := by
  unfold fanoutPhase
  cases hn : inp.updateParams.name with
  | none => rfl
  | some s =>
    by_cases hs : (s == "") = true
    · simp [hs]
    · simp [hs, hrng, horg]

theorem fanoutPhase_disabled_org (env : Env) (inp : UpdateInput) (st : St) (orgId : String)
    (horg : inp.organizationId = some orgId)
    (hset : (orgSettingFind env.orgSettings orgId).getD false = false) :
    fanoutPhase env inp st = (st.members, []) := by
  unfold fanoutPhase
  cases hn : inp.updateParams.name with
  | none => rfl
  | some s =>
    by_cases hs : (s == "") = true
    · simp [hs]
    · simp [hs, horg, hset]

theorem fanoutPhase_enabled_personal (env : Env) (inp : UpdateInput) (st : St) (s : String)
    (hn : inp.updateParams.name = some s) (hs : (s == "") = false)
    (horg : inp.organizationId = none)
    (hrng : env.userOptions.renameNodeGlobally = true) :
    fanoutPhase env inp st =
      applyFanout inp.memberId inp.updateParams true
        (personalFanoutTargets st env.userId inp.memberId inp.nwid) st.members := by
  unfold fanoutPhase
  rw [hn]
  simp [hs, hrng, horg]

theorem fanoutPhase_enabled_org (env : Env) (inp : UpdateInput) (st : St) (s orgId : String)
    (hn : inp.updateParams.name = some s) (hs : (s == "") = false)
    (horg : inp.organizationId = some orgId)
    (hset : (orgSettingFind env.orgSettings orgId).getD false = true) :
    fanoutPhase env inp st =
      applyFanout inp.memberId inp.updateParams false
        (orgFanoutTargets st orgId inp.memberId inp.nwid) st.members := by
  unfold fanoutPhase
  rw [hn]
  simp [hs, horg, hset]

/-- The global-rename fan-out never touches the rows of the edited network. -/
theorem fanoutPhase_members_mem (env : Env) (inp : UpdateInput) (st : St) :
    ∀ m ∈ st.members, m.nwid = inp.nwid → m ∈ (fanoutPhase env inp st).1 := by
  intro m hm hnw
  unfold fanoutPhase
  cases hn : inp.updateParams.name with
  | none => exact hm
  | some s =>
    by_cases hs : (s == "") = true
    · simpa [hs] using hm
    · cases horg : inp.organizationId with
      | none =>
        cases hrng : env.userOptions.renameNodeGlobally with
        | false => simp [hs, horg, hrng, hm]
        | true =>
          simp only [hs, horg, hrng, Option.isNone_none, Bool.and_true, Bool.false_eq_true,
            if_false, if_true]
          rw [applyFanout_members]
          have hc : (personalFanoutTargets st env.userId inp.memberId inp.nwid).contains m.nwid
              = false := by
            apply not_contains_of_ne
            intro t ht
            rw [hnw]
            exact personalFanoutTargets_ne st env.userId inp.memberId inp.nwid t ht
          rw [← @fanoutF_not_target inp.memberId inp.updateParams true _ _ hc]
          exact List.mem_map_of_mem _ hm
      | some orgId =>
        cases hset : ((orgSettingFind env.orgSettings orgId).getD false) with
        | false => simp [hs, horg, hset, hm]
        | true =>
          simp only [hs, horg, hset, Option.isNone_some, Bool.and_false, Bool.false_eq_true,
            if_false, if_true]
          rw [applyFanout_members]
          have hc : (orgFanoutTargets st orgId inp.memberId inp.nwid).contains m.nwid
              = false := by
            apply not_contains_of_ne
            intro t ht
            rw [hnw]
            exact orgFanoutTargets_ne st orgId inp.memberId inp.nwid t ht
          rw [← @fanoutF_not_target inp.memberId inp.updateParams false _ _ hc]
          exact List.mem_map_of_mem _ hm

/-- Every controller call issued by the fan-out targets a network other than
the edited one. -/
theorem fanoutPhase_ctrl_ne (env : Env) (inp : UpdateInput) (st : St) :
    ∀ n i p, Event.ctrlUpdate n i p ∈ (fanoutPhase env inp st).2 → n ≠ inp.nwid := by
  intro n i p he
  unfold fanoutPhase at he
  revert he
  cases hn : inp.updateParams.name with
  | none => intro he; cases he
  | some s =>
    by_cases hs : (s == "") = true
    · simp [hs]
    · cases horg : inp.organizationId with
      | none =>
        cases hrng : env.userOptions.renameNodeGlobally with
        | false => simp [hs, horg, hrng]
        | true =>
          simp only [hs, horg, hrng, Option.isNone_none, Bool.and_true, Bool.false_eq_true,
            if_false, if_true]
          intro he
          obtain ⟨t, ht, hsh⟩ := applyFanout_events_shape _ _ _ _ _ _ he
          rcases hsh with hsh | hsh
          · obtain ⟨h1, -, -⟩ := Event.ctrlUpdate.inj hsh
            rw [h1]
            exact personalFanoutTargets_ne st env.userId inp.memberId inp.nwid t ht
          · exact Event.noConfusion hsh
      | some orgId =>
        cases hset : ((orgSettingFind env.orgSettings orgId).getD false) with
        | false => simp [hs, horg, hset]
        | true =>
          simp only [hs, horg, hset, Option.isNone_some, Bool.and_false, Bool.false_eq_true,
            if_false, if_true]
          intro he
          obtain ⟨t, ht, hsh⟩ := applyFanout_events_shape _ _ _ _ _ _ he
          rcases hsh with hsh | hsh
          · obtain ⟨h1, -, -⟩ := Event.ctrlUpdate.inj hsh
            rw [h1]
            exact orgFanoutTargets_ne st orgId inp.memberId inp.nwid t ht
          · exact Event.noConfusion hsh

theorem update_st_eq (env : Env) (r c w : Bool) (inp : UpdateInput) (st : St) :
    (Update env r c w inp st).st =
      match updatePre env r c inp st with
      | .inl res => res.st
      | .inr (st2, _) => st2 := by
  unfold Update
  cases h : updatePre env r c inp st with
  | inl res => rfl
  | inr p =>
    obtain ⟨st2, ev⟩ := p
    by_cases hw : w = true
    · simp [hw]
    · have hw2 : w = false := by simpa using hw
      simp [hw2]

theorem update_st_webhook_indep (env : Env) (r c w1 w2 : Bool) (inp : UpdateInput)
    (st : St) : (Update env r c w1 inp st).st = (Update env r c w2 inp st).st := by
  rw [update_st_eq, update_st_eq]

theorem updatePre_st_shape (env : Env) (r c : Bool) (inp : UpdateInput) (st : St) :
    (match updatePre env r c inp st with
      | .inl res => res.st
      | .inr (st2, _) => st2) = st ∨
    (match updatePre env r c inp st with
      | .inl res => res.st
      | .inr (st2, _) => st2) = { st with members := (fanoutPhase env inp st).1 } ∨
    (match updatePre env r c inp st with
      | .inl res => res.st
      | .inr (st2, _) => st2) =
        { st with members := ((fanoutPhase env inp st).1).map (currentDbUpdateF inp) } := by
  unfold updatePre
  by_cases h1 : (inp.organizationId.isSome && !r) = true
  · simp [h1]
  · have h1f : (inp.organizationId.isSome && !r) = false := by simpa using h1
    by_cases h2 : (invalidIPs env.validIP inp.updateParams.ipAssignments).isEmpty = true
    · by_cases h3 : c = true
      · cases h4 : (fanoutPhase env inp st).1.find?
            (fun m => m.id == inp.memberId && m.nwid == inp.nwid) with
        | none => simp [h1f, h2, h3, h4]
        | some m0 =>
          by_cases h5 : (inp.updateParams.name.isSome || inp.updateParams.authorized.isSome ||
              inp.updateParams.description.isSome) = true
          · simp [h1f, h2, h3, h4, h5]
          · have h5f : (inp.updateParams.name.isSome || inp.updateParams.authorized.isSome ||
                inp.updateParams.description.isSome) = false := by simpa using h5
            simp [h1f, h2, h3, h4, h5f]
      · have h3f : c = false := by simpa using h3
        simp [h1f, h2, h3f]
    · have h2f : (invalidIPs env.validIP inp.updateParams.ipAssignments).isEmpty = false := by
        simpa using h2
      simp [h1f, h2f]

/-- `Update` only ever rewrites member rows in place: the resulting member
table is the input table with the fan-out map and possibly the edited
network's field update applied, both of which preserve the key and the
`deleted` / `permanentlyDeleted` flags of every row. -/
theorem update_members_shape (env : Env) (r c w : Bool) (inp : UpdateInput) (st : St) :
    (Update env r c w inp st).st.members = st.members ∨
    (Update env r c w inp st).st.members = (fanoutPhase env inp st).1 ∨
    (Update env r c w inp st).st.members =
      ((fanoutPhase env inp st).1).map (currentDbUpdateF inp) := by
  rw [update_st_eq]
  rcases updatePre_st_shape env r c inp st with h | h | h
  · exact Or.inl (by rw [h])
  · exact Or.inr (Or.inl (by rw [h]))
  · exact Or.inr (Or.inr (by rw [h]))

theorem update_networks (env : Env) (r c w : Bool) (inp : UpdateInput) (st : St) :
    (Update env r c w inp st).st.networks = st.networks := by
  rw [update_st_eq]
  rcases updatePre_st_shape env r c inp st with h | h | h <;> rw [h]

/-- Trace decomposition of a role-authorized `Update`: the activity log, then
the fan-out trace, then a tail whose controller calls (if any) all target the
edited network with the given parameters. -/
theorem update_events_shape (env : Env) (c w : Bool) (inp : UpdateInput) (st : St) :
    ∃ tail : List Event,
      (Update env true c w inp st).events =
        Event.activityLog :: ((fanoutPhase env inp st).2 ++ tail) ∧
      (∀ n i p, Event.ctrlUpdate n i p ∈ tail →
        n = inp.nwid ∧ i = inp.memberId ∧ p = inp.updateParams) := by
  have horgtail : ∀ e ∈ (match inp.organizationId, inp.updateParams.authorized with
      | some _, some false => [Event.orgNotify "NODE_DELETED"]
      | _, _ => ([] : List Event)), ∀ n i p, e ≠ Event.ctrlUpdate n i p := by
    rcases inp.organizationId with - | o <;> rcases ha : inp.updateParams.authorized with - | b
    · simp
    · cases b <;> simp
    · simp
    · cases b <;> simp
  unfold Update updatePre
  have h1f : (inp.organizationId.isSome && !true) = false := by simp
  by_cases h2 : (invalidIPs env.validIP inp.updateParams.ipAssignments).isEmpty = true
  · by_cases h3 : c = true
    · cases h4 : (fanoutPhase env inp st).1.find?
          (fun m => m.id == inp.memberId && m.nwid == inp.nwid) with
      | none =>
        by_cases hw : w = true
        · refine ⟨[Event.ctrlUpdate inp.nwid inp.memberId inp.updateParams,
            Event.webhook "MEMBER_CONFIG_CHANGED"] ++ (match inp.organizationId,
            inp.updateParams.authorized with
            | some _, some false => [Event.orgNotify "NODE_DELETED"]
            | _, _ => []), ?_, ?_⟩
          · simp [h1f, h2, h3, h4, hw]
          · intro n i p hmem
            simp only [List.mem_append, List.mem_cons, List.mem_singleton] at hmem
            rcases hmem with (h | h | h) | h
            · obtain ⟨e1, e2, e3⟩ := Event.ctrlUpdate.inj h.symm
              exact ⟨e1.symm, e2.symm, e3.symm⟩
            · exact absurd h (by simp)
            · exact absurd h (by simp)
            · exact absurd rfl (horgtail _ h n i p)
        · have hwf : w = false := by simpa using hw
          refine ⟨[Event.ctrlUpdate inp.nwid inp.memberId inp.updateParams,
            Event.webhook "MEMBER_CONFIG_CHANGED"], ?_, ?_⟩
          · simp [h1f, h2, h3, h4, hwf]
          · intro n i p hmem
            simp only [List.mem_cons, List.mem_singleton] at hmem
            rcases hmem with h | h | h
            · obtain ⟨e1, e2, e3⟩ := Event.ctrlUpdate.inj h.symm
              exact ⟨e1.symm, e2.symm, e3.symm⟩
            · exact absurd h (by simp)
            · cases h
      | some m0 =>
        by_cases h5 : (inp.updateParams.name.isSome || inp.updateParams.authorized.isSome ||
            inp.updateParams.description.isSome) = true
        · by_cases hw : w = true
          · refine ⟨[Event.ctrlUpdate inp.nwid inp.memberId inp.updateParams,
              Event.dbMemberUpdate inp.nwid inp.memberId,
              Event.webhook "MEMBER_CONFIG_CHANGED"] ++ (match inp.organizationId,
              inp.updateParams.authorized with
              | some _, some false => [Event.orgNotify "NODE_DELETED"]
              | _, _ => []), ?_, ?_⟩
            · simp [h1f, h2, h3, h4, h5, hw]
            · intro n i p hmem
              simp only [List.mem_append, List.mem_cons, List.mem_singleton] at hmem
              rcases hmem with (h | h | h | h) | h
              · obtain ⟨e1, e2, e3⟩ := Event.ctrlUpdate.inj h.symm
                exact ⟨e1.symm, e2.symm, e3.symm⟩
              · exact absurd h (by simp)
              · exact absurd h (by simp)
              · exact absurd h (by simp)
              · exact absurd rfl (horgtail _ h n i p)
          · have hwf : w = false := by simpa using hw
            refine ⟨[Event.ctrlUpdate inp.nwid inp.memberId inp.updateParams,
              Event.dbMemberUpdate inp.nwid inp.memberId,
              Event.webhook "MEMBER_CONFIG_CHANGED"], ?_, ?_⟩
            · simp [h1f, h2, h3, h4, h5, hwf]
            · intro n i p hmem
              simp only [List.mem_cons, List.mem_singleton] at hmem
              rcases hmem with h | h | h | h
              · obtain ⟨e1, e2, e3⟩ := Event.ctrlUpdate.inj h.symm
                exact ⟨e1.symm, e2.symm, e3.symm⟩
              · exact absurd h (by simp)
              · exact absurd h (by simp)
              · cases h
        · have h5f : (inp.updateParams.name.isSome || inp.updateParams.authorized.isSome ||
              inp.updateParams.description.isSome) = false := by simpa using h5
          by_cases hw : w = true
          · refine ⟨[Event.ctrlUpdate inp.nwid inp.memberId inp.updateParams,
              Event.webhook "MEMBER_CONFIG_CHANGED"] ++ (match inp.organizationId,
              inp.updateParams.authorized with
              | some _, some false => [Event.orgNotify "NODE_DELETED"]
              | _, _ => []), ?_, ?_⟩
            · simp [h1f, h2, h3, h4, h5f, hw]
            · intro n i p hmem
              simp only [List.mem_append, List.mem_cons, List.mem_singleton] at hmem
              rcases hmem with (h | h | h) | h
              · obtain ⟨e1, e2, e3⟩ := Event.ctrlUpdate.inj h.symm
                exact ⟨e1.symm, e2.symm, e3.symm⟩
              · exact absurd h (by simp)
              · exact absurd h (by simp)
              · exact absurd rfl (horgtail _ h n i p)
          · have hwf : w = false := by simpa using hw
            refine ⟨[Event.ctrlUpdate inp.nwid inp.memberId inp.updateParams,
              Event.webhook "MEMBER_CONFIG_CHANGED"], ?_, ?_⟩
            · simp [h1f, h2, h3, h4, h5f, hwf]
            · intro n i p hmem
              simp only [List.mem_cons, List.mem_singleton] at hmem
              rcases hmem with h | h | h
              · obtain ⟨e1, e2, e3⟩ := Event.ctrlUpdate.inj h.symm
                exact ⟨e1.symm, e2.symm, e3.symm⟩
              · exact absurd h (by simp)
              · cases h
    · have h3f : c = false := by simpa using h3
      refine ⟨[Event.ctrlUpdate inp.nwid inp.memberId inp.updateParams], ?_, ?_⟩
      · simp [h1f, h2, h3f]
      · intro n i p hmem
        simp only [List.mem_singleton] at hmem
        obtain ⟨e1, e2, e3⟩ := Event.ctrlUpdate.inj hmem.symm
        exact ⟨e1.symm, e2.symm, e3.symm⟩
  · have h2f : (invalidIPs env.validIP inp.updateParams.ipAssignments).isEmpty = false := by
      simpa using h2
    refine ⟨[], ?_, ?_⟩
    · simp [h1f, h2f]
    · intro n i p hmem
      cases hmem

/-- When `ipAssignments` validates, `Update` always issues the controller call
for the edited network (even when the controller then rejects it). -/
theorem update_ctrl_event_mem (env : Env) (c w : Bool) (inp : UpdateInput) (st : St)
    (hval : invalidIPs env.validIP inp.updateParams.ipAssignments = []) :
    Event.ctrlUpdate inp.nwid inp.memberId inp.updateParams ∈
      (Update env true c w inp st).events := by
  have h2 : (invalidIPs env.validIP inp.updateParams.ipAssignments).isEmpty = true := by
    rw [hval]; rfl
  unfold Update updatePre
  have h1f : (inp.organizationId.isSome && !true) = false := by simp
  by_cases h3 : c = true
  · cases h4 : (fanoutPhase env inp st).1.find?
        (fun m => m.id == inp.memberId && m.nwid == inp.nwid) with
    | none =>
      by_cases hw : w = true
      · simp [h1f, h2, h3, h4, hw]
      · have hwf : w = false := by simpa using hw
        simp [h1f, h2, h3, h4, hwf]
    | some m0 =>
      by_cases h5 : (inp.updateParams.name.isSome || inp.updateParams.authorized.isSome ||
          inp.updateParams.description.isSome) = true
      · by_cases hw : w = true
        · simp [h1f, h2, h3, h4, h5, hw]
        · have hwf : w = false := by simpa using hw
          simp [h1f, h2, h3, h4, h5, hwf]
      · have h5f : (inp.updateParams.name.isSome || inp.updateParams.authorized.isSome ||
            inp.updateParams.description.isSome) = false := by simpa using h5
        by_cases hw : w = true
        · simp [h1f, h2, h3, h4, h5f, hw]
        · have hwf : w = false := by simpa using hw
          simp [h1f, h2, h3, h4, h5f, hwf]
  · have h3f : c = false := by simpa using h3
    simp [h1f, h2, h3f]

theorem bulkMembers_eq_map (nwid : String) (ms : List Member) :
    bulkMembers nwid ms = ms.map (fun m =>
      if m.nwid == nwid && m.deleted == true then { m with permanentlyDeleted := true }
      else m) := by
  unfold bulkMembers
  by_cases hE : (ms.filter (fun m => m.nwid == nwid && m.deleted == true)).isEmpty = true
  · rw [if_pos hE]
    have hnone := List.isEmpty_iff.mp hE
    symm
    rw [List.map_congr_left (g := id) ?_, List.map_id]
    intro m hm
    have hmem : ¬((fun m => m.nwid == nwid && m.deleted == true) m = true) :=
      List.filter_eq_nil_iff.mp hnone m hm
    have hcond : (m.nwid == nwid && m.deleted == true) = false := by simpa using hmem
    rw [hcond]
    exact if_neg Bool.false_ne_true
  · rw [if_neg hE]
    apply List.map_congr_left
    intro m hm
    by_cases hcond : (m.nwid == nwid && m.deleted == true) = true
    · have hmf : m ∈ ms.filter (fun m => m.nwid == nwid && m.deleted == true) :=
        List.mem_filter.mpr ⟨hm, hcond⟩
      have hid : m.id ∈ (ms.filter
          (fun m => m.nwid == nwid && m.deleted == true)).map (fun m => m.id) :=
        List.mem_map_of_mem _ hmf
      have hcontains := (contains_iff_mem _ m.id).mpr hid
      obtain ⟨h1, h2⟩ := Bool.and_eq_true_iff.mp hcond
      have hl : (m.nwid == nwid && ((ms.filter
          (fun m => m.nwid == nwid && m.deleted == true)).map
            (fun m => m.id)).contains m.id && m.deleted == true) = true := by
        rw [h1, h2, hcontains]
        rfl
      rw [hl, hcond, if_pos rfl]
    · have hcf : (m.nwid == nwid && m.deleted == true) = false := by simpa using hcond
      have hl : (m.nwid == nwid && ((ms.filter
          (fun m => m.nwid == nwid && m.deleted == true)).map
            (fun m => m.id)).contains m.id && m.deleted == true) = false := by
        rcases Bool.and_eq_false_iff.mp hcf with h1 | h2
        · rw [h1, Bool.false_and, Bool.false_and]
        · rw [h2, Bool.and_false]
      rw [hl, hcf, if_neg Bool.false_ne_true]

theorem bulkMembers_idem (nwid : String) (ms : List Member) :
    bulkMembers nwid (bulkMembers nwid ms) = bulkMembers nwid ms := by
  rw [bulkMembers_eq_map, bulkMembers_eq_map, List.map_map]
  apply List.map_congr_left
  intro m _
  simp only [Function.comp]
  by_cases hcond : (m.nwid == nwid && m.deleted == true) = true
  · have hfm : (if m.nwid == nwid && m.deleted == true then
        { m with permanentlyDeleted := true } else m) =
          { m with permanentlyDeleted := true } := by
      rw [hcond]
      exact if_pos rfl
    simp only [hfm]
    have hx2 : (({ m with permanentlyDeleted := true } : Member).nwid == nwid &&
        ({ m with permanentlyDeleted := true } : Member).deleted == true) = true := hcond
    rw [hx2, if_pos rfl]
  · have hcf : (m.nwid == nwid && m.deleted == true) = false := by simpa using hcond
    have hfm : (if m.nwid == nwid && m.deleted == true then
        { m with permanentlyDeleted := true } else m) = m := by
      rw [hcf]
      exact if_neg Bool.false_ne_true
    simp only [hfm]

/-- A member transformer that preserves the row key and the two deletion
flags (it may only rewrite `name`, `description`, `authorized`). -/
def KeyFlagsF (f : Member → Member) : Prop :=
  ∀ m, (f m).id = m.id ∧ (f m).nwid = m.nwid ∧ (f m).deleted = m.deleted ∧
    (f m).permanentlyDeleted = m.permanentlyDeleted

theorem fanoutF_keyFlags (memberId : String) (params : UpdateParams) (withDesc : Bool)
    (targets : List String) : KeyFlagsF (fanoutF memberId params withDesc targets) := by
  intro m
  unfold fanoutF
  by_cases h : (m.id == memberId && m.deleted == false && targets.contains m.nwid) = true
  · rw [h, if_pos rfl]
    exact ⟨rfl, rfl, rfl, rfl⟩
  · have hf : (m.id == memberId && m.deleted == false && targets.contains m.nwid) = false := by
      simpa using h
    rw [hf, if_neg Bool.false_ne_true]
    exact ⟨rfl, rfl, rfl, rfl⟩

theorem currentDbUpdateF_keyFlags (inp : UpdateInput) : KeyFlagsF (currentDbUpdateF inp) := by
  intro m
  unfold currentDbUpdateF
  by_cases h : (m.id == inp.memberId && m.nwid == inp.nwid) = true
  · rw [h, if_pos rfl]
    exact ⟨rfl, rfl, rfl, rfl⟩
  · have hf : (m.id == inp.memberId && m.nwid == inp.nwid) = false := by simpa using h
    rw [hf, if_neg Bool.false_ne_true]
    exact ⟨rfl, rfl, rfl, rfl⟩

theorem keyFlagsF_id : KeyFlagsF (fun m => m) := fun _ => ⟨rfl, rfl, rfl, rfl⟩

theorem keyFlagsF_comp {f g : Member → Member} (hf : KeyFlagsF f) (hg : KeyFlagsF g) :
    KeyFlagsF (fun m => g (f m)) := by
  intro m
  obtain ⟨a1, a2, a3, a4⟩ := hf m
  obtain ⟨b1, b2, b3, b4⟩ := hg (f m)
  exact ⟨b1.trans a1, b2.trans a2, b3.trans a3, b4.trans a4⟩

theorem fanoutPhase_members_map (env : Env) (inp : UpdateInput) (st : St) :
    ∃ f : Member → Member, KeyFlagsF f ∧
      (fanoutPhase env inp st).1 = st.members.map f := by
  unfold fanoutPhase
  cases hn : inp.updateParams.name with
  | none => exact ⟨fun m => m, keyFlagsF_id, by simp⟩
  | some s =>
    by_cases hs : (s == "") = true
    · exact ⟨fun m => m, keyFlagsF_id, by simp [hs]⟩
    · cases horg : inp.organizationId with
      | none =>
        cases hrng : env.userOptions.renameNodeGlobally with
        | false => exact ⟨fun m => m, keyFlagsF_id, by simp [hs, horg, hrng]⟩
        | true =>
          refine ⟨fanoutF inp.memberId inp.updateParams true
            (personalFanoutTargets st env.userId inp.memberId inp.nwid),
            fanoutF_keyFlags _ _ _ _, ?_⟩
          simp only [hs, horg, hrng, Option.isNone_none, Bool.and_true, Bool.false_eq_true,
            if_false, if_true]
          exact applyFanout_members _ _ _ _ _
      | some orgId =>
        cases hset : ((orgSettingFind env.orgSettings orgId).getD false) with
        | false => exact ⟨fun m => m, keyFlagsF_id, by simp [hs, horg, hset]⟩
        | true =>
          refine ⟨fanoutF inp.memberId inp.updateParams false
            (orgFanoutTargets st orgId inp.memberId inp.nwid),
            fanoutF_keyFlags _ _ _ _, ?_⟩
          simp only [hs, horg, hset, Option.isNone_some, Bool.and_false, Bool.false_eq_true,
            if_false, if_true]
          exact applyFanout_members _ _ _ _ _

/-- `Update` rewrites the member table pointwise through a transformer that
preserves every row's key and deletion flags. -/
theorem update_members_map (env : Env) (r c w : Bool) (inp : UpdateInput) (st : St) :
    ∃ f : Member → Member, KeyFlagsF f ∧
      (Update env r c w inp st).st.members = st.members.map f := by
  obtain ⟨g, hg, hgm⟩ := fanoutPhase_members_map env inp st
  rcases update_members_shape env r c w inp st with h | h | h
  · exact ⟨fun m => m, keyFlagsF_id, by simpa using h⟩
  · exact ⟨g, hg, by rw [h, hgm]⟩
  · refine ⟨fun m => currentDbUpdateF inp (g m),
      keyFlagsF_comp hg (currentDbUpdateF_keyFlags inp), ?_⟩
    rw [h, hgm, List.map_map]
    rfl

/-! ### Claim theorems -/

/-- C1 (counterexample): the merge of `getNetworkById` does include a member
whose database row has `permanentlyDeleted = true` when that row has
`deleted = false` — a state reachable through the exposed API: stash the
member, delete it (turning it permanently deleted), then un-stash it through
`UpdateDatabaseOnly` with `deleted := false`.  The controller still reports
the member and the merged list contains its permanently deleted row, so the
claim as stated is false. -/
theorem mergedMembers_includes_permanentlyDeleted_row :
    ((mergedMembers
      (updateDatabaseOnly "n1" "aa11bb22cc" (some false) none
        ((delete plainEnv true true true
          { organizationId := none, nwid := "n1", id := "aa11bb22cc" }
          ((stash plainEnv true true true true
            { organizationId := none, nwid := "n1", id := "aa11bb22cc" } c1St).st)).st)).members
      [{ id := "aa11bb22cc" }]).any MergedEntry.rowPermanentlyDeleted) = true := by
  decide

/-- C1 (amended): provided every permanently deleted row of the network is
also stashed (`permanentlyDeleted → deleted`, the invariant the lifecycle
operations themselves maintain), the merged member list of `getNetworkById`
never contains a member whose database row has `permanentlyDeleted = true`;
and a controller-reported member with no database row at all is added only if
its identifier is not in the permanently-deleted set. -/
theorem mergedMembers_suppresses_permanentlyDeleted
    (db : List Member) (ctrl : List CtrlMember)
    (hInv : ∀ m ∈ db, m.permanentlyDeleted = true → m.deleted = true) :
    ∀ e ∈ mergedMembers db ctrl,
      (∀ r, e.dbRow = some r → r.permanentlyDeleted = false) ∧
      (∀ c, e = MergedEntry.ctrlOnly c →
        (permanentlyDeletedMemberIds db).contains c.id = false ∧
        ∀ d ∈ db, d.id ≠ c.id) := by
  intro e he
  obtain ⟨kv, hkv, hsnd⟩ := List.mem_map.mp he
  rcases mem_addControllerMembers hkv with hdb | hctrl
  · rcases mem_addDatabaseMembers hdb with hnil | hmem
    · cases hnil
    · obtain ⟨member, hm, hdel, hshape⟩ := hmem
      have hpd : member.permanentlyDeleted = false := by
        cases hp : member.permanentlyDeleted with
        | false => rfl
        | true => rw [hInv member hm hp] at hdel; cases hdel
      constructor
      · intro r hr
        rcases hshape with hsh | ⟨c, hsh⟩
        · rw [← hsnd, hsh] at hr
          simp only [MergedEntry.dbRow, Option.some.injEq] at hr
          rw [← hr]
          exact hpd
        · rw [← hsnd, hsh] at hr
          simp only [MergedEntry.dbRow, Option.some.injEq] at hr
          rw [← hr]
          exact hpd
      · intro c hc
        rcases hshape with hsh | ⟨c2, hsh⟩
        · rw [← hsnd, hsh] at hc
          exact MergedEntry.noConfusion hc
        · rw [← hsnd, hsh] at hc
          exact MergedEntry.noConfusion hc
  · obtain ⟨c, hcm, hshape, hany, hcont⟩ := hctrl
    constructor
    · intro r hr
      rw [← hsnd, hshape] at hr
      exact Option.noConfusion hr
    · intro c0 hc0
      rw [← hsnd, hshape] at hc0
      obtain rfl : c = c0 := MergedEntry.ctrlOnly.inj hc0
      refine ⟨hcont, ?_⟩
      intro d hd
      have := List.any_eq_false.mp hany d hd
      intro hEq
      rw [hEq] at this
      simp at this

/-- C1 (witness): the amended theorem applied to a concrete roster containing
a permanently deleted member that the controller still reports, an active
member and a controller-only newcomer. -/
theorem mergedMembers_suppresses_permanentlyDeleted_witness :
    (∀ m ∈ c1DbW, m.permanentlyDeleted = true → m.deleted = true) ∧
    ∀ e ∈ mergedMembers c1DbW c1CtrlW,
      (∀ r, e.dbRow = some r → r.permanentlyDeleted = false) ∧
      (∀ c, e = MergedEntry.ctrlOnly c →
        (permanentlyDeletedMemberIds c1DbW).contains c.id = false ∧
        ∀ d ∈ c1DbW, d.id ≠ c.id) :=
  ⟨by decide, mergedMembers_suppresses_permanentlyDeleted c1DbW c1CtrlW (by decide)⟩

/-- C2: the `delete` procedure branches on the stored `deleted` flag.  For an
existing row of a non-central network: if the row is not stashed, the member
is removed from the controller (`ctrlDelete` issued) and — when the
controller accepts — the database row is deleted outright, so no row for the
pair remains; if the row is stashed, the controller is not called, the row is
kept, and only its `permanentlyDeleted` field is set to `true`. -/
theorem delete_branches_on_deleted_flag
    (env : Env) (ctrlOk webhookOk : Bool) (inp : StashInput) (st : St) (row : Member)
    (hrow : memberRow st inp.id inp.nwid = some row) :
    (row.deleted = false → ctrlOk = true →
      memberRow (delete env true ctrlOk webhookOk inp st).st inp.id inp.nwid = none ∧
      Event.ctrlDelete inp.nwid inp.id ∈ (delete env true ctrlOk webhookOk inp st).events) ∧
    (row.deleted = true →
      memberRow (delete env true ctrlOk webhookOk inp st).st inp.id inp.nwid =
        some { row with permanentlyDeleted := true } ∧
      (delete env true ctrlOk webhookOk inp st).error = none ∧
      Event.ctrlDelete inp.nwid inp.id ∉
        (delete env true ctrlOk webhookOk inp st).events) := by
  have hfind : st.members.find? (fun m => m.id == inp.id && m.nwid == inp.nwid) = some row :=
    hrow
  have hpred := List.find?_some hfind
  constructor
  · intro hdel hctrl
    subst hctrl
    constructor
    · have hm : (delete env true true webhookOk inp st).st.members =
          st.members.filter (fun x => !(x.id == inp.id && x.nwid == inp.nwid)) := by
        by_cases hw : webhookOk = true
        · simp [delete, hfind, hdel, hw]
        · have hwf : webhookOk = false := by simpa using hw
          simp [delete, hfind, hdel, hwf]
      simp only [memberRow]
      rw [hm]
      apply List.find?_eq_none.mpr
      intro x hx
      have h2 := (List.mem_filter.mp hx).2
      simp only [Bool.not_eq_true'] at h2
      simp [h2]
    · by_cases hw : webhookOk = true
      · simp [delete, hfind, hdel, hw]
      · have hwf : webhookOk = false := by simpa using hw
        simp [delete, hfind, hdel, hwf]
  · intro hdel
    have hm : (delete env true ctrlOk webhookOk inp st).st.members =
        st.members.map (fun x =>
          if x.id == inp.id && x.nwid == inp.nwid then { x with permanentlyDeleted := true }
          else x) := by
      simp [delete, hfind, hdel]
    refine ⟨?_, ?_, ?_⟩
    · simp only [memberRow]
      rw [hm, find?_key_map inp.id inp.nwid _ ?_ st.members]
      · rw [hfind]
        simp only [Option.map_some']
        rw [hpred, if_pos rfl]
      · intro m
        by_cases hk : (m.id == inp.id && m.nwid == inp.nwid) = true
        · rw [hk, if_pos rfl]
          exact ⟨rfl, rfl⟩
        · have hkf : (m.id == inp.id && m.nwid == inp.nwid) = false := by simpa using hk
          rw [hkf, if_neg Bool.false_ne_true]
          exact ⟨rfl, rfl⟩
    · simp [delete, hfind, hdel]
    · cases horg : inp.organizationId with
      | none => simp [delete, hfind, hdel, horg]
      | some o => simp [delete, hfind, hdel, horg]

/-- C2 (witness): deleting the active member of `c2St` removes its row after
the controller call; deleting the stashed member keeps the row and marks it
permanently deleted without a controller call. -/
theorem delete_branches_on_deleted_flag_witness :
    (memberRow (delete plainEnv true true true
        { organizationId := none, nwid := "n2", id := "1111111111" } c2St).st
        "1111111111" "n2" = none ∧
      Event.ctrlDelete "n2" "1111111111" ∈ (delete plainEnv true true true
        { organizationId := none, nwid := "n2", id := "1111111111" } c2St).events) ∧
    (memberRow (delete plainEnv true true true
        { organizationId := none, nwid := "n2", id := "2222222222" } c2St).st
        "2222222222" "n2" =
      some { id := "2222222222", nwid := "n2", authorized := false, deleted := true,
             permanentlyDeleted := true, name := some "stashed", description := none } ∧
      (delete plainEnv true true true
        { organizationId := none, nwid := "n2", id := "2222222222" } c2St).error = none ∧
      Event.ctrlDelete "n2" "2222222222" ∉ (delete plainEnv true true true
        { organizationId := none, nwid := "n2", id := "2222222222" } c2St).events) := by
  constructor
  · exact (delete_branches_on_deleted_flag plainEnv true true
      { organizationId := none, nwid := "n2", id := "1111111111" } c2St
      { id := "1111111111", nwid := "n2", authorized := true, deleted := false,
        permanentlyDeleted := false, name := some "active", description := none }
      (by decide)).1 rfl rfl
  · exact (delete_branches_on_deleted_flag plainEnv true true
      { organizationId := none, nwid := "n2", id := "2222222222" } c2St
      { id := "2222222222", nwid := "n2", authorized := false, deleted := true,
        permanentlyDeleted := false, name := some "stashed", description := none }
      (by decide)).2 rfl

/-- C4: when a row already exists for the `(id, nwid)` pair, `create` updates
it in place — the pair's row count stays exactly one, the table's length is
unchanged (no insert), and the row ends un-stashed
(`deleted = false, permanentlyDeleted = false`). -/
theorem create_existing_updates_in_place (env : Env) (webhookOk : Bool) (inp : CreateInput)
    (st : St) (h1 : countPair st.members inp.id inp.nwid = 1) :
    countPair (create env true webhookOk inp st).st.members inp.id inp.nwid = 1 ∧
    (create env true webhookOk inp st).st.members.length = st.members.length ∧
    ∀ m ∈ (create env true webhookOk inp st).st.members,
      m.id = inp.id → m.nwid = inp.nwid →
        m.deleted = false ∧ m.permanentlyDeleted = false := by
  have hex : ∃ x ∈ st.members, (x.id == inp.id && x.nwid == inp.nwid) = true := by
    unfold countPair at h1
    cases hfil : st.members.filter (fun m => m.id == inp.id && m.nwid == inp.nwid) with
    | nil => rw [hfil] at h1; cases h1
    | cons a t =>
      have ha : a ∈ st.members.filter (fun m => m.id == inp.id && m.nwid == inp.nwid) := by
        rw [hfil]; exact List.mem_cons_self a t
      have := List.mem_filter.mp ha
      exact ⟨a, this.1, this.2⟩
  have hsome : (st.members.find? (fun m => m.id == inp.id && m.nwid == inp.nwid)).isSome :=
    List.find?_isSome.mpr hex
  obtain ⟨member, hfind⟩ := Option.isSome_iff_exists.mp hsome
  have hm : (create env true webhookOk inp st).st.members =
      st.members.map (fun m =>
        if m.id == inp.id && m.nwid == inp.nwid then
          { m with
            deleted := false,
            permanentlyDeleted := false,
            name := existingMemberName env inp st member }
        else m) := by
    simp [create, hfind]
  refine ⟨?_, ?_, ?_⟩
  · unfold countPair
    rw [hm, filter_key_map _ _ ?_ st.members]
    · rw [List.length_map]
      exact h1
    · intro m
      by_cases hk : (m.id == inp.id && m.nwid == inp.nwid) = true
      · rw [hk, if_pos rfl]
        exact hk
      · have hkf : (m.id == inp.id && m.nwid == inp.nwid) = false := by simpa using hk
        rw [hkf, if_neg Bool.false_ne_true]
        exact hkf
  · rw [hm, List.length_map]
  · intro m hmem hid hnwid
    rw [hm] at hmem
    obtain ⟨m1, hm1, hfeq⟩ := List.mem_map.mp hmem
    by_cases hk : (m1.id == inp.id && m1.nwid == inp.nwid) = true
    · rw [hk, if_pos rfl] at hfeq
      rw [← hfeq]
      exact ⟨rfl, rfl⟩
    · have hkf : (m1.id == inp.id && m1.nwid == inp.nwid) = false := by simpa using hk
      rw [hkf, if_neg Bool.false_ne_true] at hfeq
      rw [← hfeq] at hid hnwid
      rw [hid, hnwid] at hkf
      simp at hkf

/-- C4 (witness): re-adding the stashed member of `c4St` flips it back to
active in place. -/
theorem create_existing_updates_in_place_witness :
    countPair (create plainEnv true true
      { organizationId := none, id := "4444444444", nwid := "n4" } c4St).st.members
      "4444444444" "n4" = 1 ∧
    (create plainEnv true true
      { organizationId := none, id := "4444444444", nwid := "n4" } c4St).st.members.length =
      c4St.members.length ∧
    ∀ m ∈ (create plainEnv true true
      { organizationId := none, id := "4444444444", nwid := "n4" } c4St).st.members,
      m.id = "4444444444" → m.nwid = "n4" →
        m.deleted = false ∧ m.permanentlyDeleted = false :=
  create_existing_updates_in_place plainEnv true
    { organizationId := none, id := "4444444444", nwid := "n4" } c4St (by decide)

theorem stashDbF_props (id nwid : String) (m : Member) :
    (stashDbF id nwid m).id = m.id ∧ (stashDbF id nwid m).nwid = m.nwid ∧
    (stashDbF id nwid m).permanentlyDeleted = m.permanentlyDeleted ∧
    ((stashDbF id nwid m).deleted = m.deleted ∨ (stashDbF id nwid m).deleted = true) := by
  unfold stashDbF
  by_cases hk : (m.id == id && m.nwid == nwid) = true
  · rw [hk, if_pos rfl]
    exact ⟨rfl, rfl, rfl, Or.inr rfl⟩
  · have hkf : (m.id == id && m.nwid == nwid) = false := by simpa using hk
    rw [hkf, if_neg Bool.false_ne_true]
    exact ⟨rfl, rfl, rfl, Or.inl rfl⟩

theorem stash_members_shape (env : Env) (c iw w : Bool) (inp : StashInput) (st : St) :
    ∃ g : Member → Member,
      (∀ m, (g m).id = m.id ∧ (g m).nwid = m.nwid ∧
        (g m).permanentlyDeleted = m.permanentlyDeleted ∧
        ((g m).deleted = m.deleted ∨ (g m).deleted = true)) ∧
      (stash env true c iw w inp st).st.members = st.members.map g := by
  obtain ⟨f, hf, hfm⟩ := update_members_map env true c iw
    { nwid := inp.nwid, memberId := inp.id, organizationId := inp.organizationId,
      updateParams := stashUpdateParams } st
  by_cases hnet : ((Update env true c iw
      { nwid := inp.nwid, memberId := inp.id, organizationId := inp.organizationId,
        updateParams := stashUpdateParams } st).st.networks.any
        (fun n => n.nwid == inp.nwid)) = true
  · refine ⟨fun m => stashDbF inp.id inp.nwid (f m), ?_, ?_⟩
    · intro m
      obtain ⟨a1, a2, a3, a4⟩ := hf m
      obtain ⟨b1, b2, b3, b4⟩ := stashDbF_props inp.id inp.nwid (f m)
      refine ⟨b1.trans a1, b2.trans a2, b3.trans a4, ?_⟩
      rcases b4 with hb | hb
      · exact Or.inl (hb.trans a3)
      · exact Or.inr hb
    · have hw2 : (stash env true c iw w inp st).st.members =
          ((Update env true c iw
            { nwid := inp.nwid, memberId := inp.id, organizationId := inp.organizationId,
              updateParams := stashUpdateParams } st).st.members).map
                (stashDbF inp.id inp.nwid) := by
        by_cases hw : w = true
        · simp [stash, hnet, hw]
        · have hwf : w = false := by simpa using hw
          simp [stash, hnet, hwf]
      rw [hw2, hfm, List.map_map]
      rfl
  · refine ⟨f, fun m => ⟨(hf m).1, (hf m).2.1, (hf m).2.2.2, Or.inl (hf m).2.2.1⟩, ?_⟩
    have hnetf : ((Update env true c iw
        { nwid := inp.nwid, memberId := inp.id, organizationId := inp.organizationId,
          updateParams := stashUpdateParams } st).st.networks.any
          (fun n => n.nwid == inp.nwid)) = false := by simpa using hnet
    have hw2 : (stash env true c iw w inp st).st.members =
        (Update env true c iw
          { nwid := inp.nwid, memberId := inp.id, organizationId := inp.organizationId,
            updateParams := stashUpdateParams } st).st.members := by
      by_cases hw : w = true
      · simp [stash, hnetf, hw]
      · have hwf : w = false := by simpa using hw
        simp [stash, hnetf, hwf]
    rw [hw2, hfm]

theorem delete_members_rel (env : Env) (c w : Bool) (inp : StashInput) (st : St) :
    ∀ m2 ∈ (delete env true c w inp st).st.members,
      ∃ m1 ∈ st.members, m2.id = m1.id ∧ m2.nwid = m1.nwid ∧
        m2.deleted = m1.deleted ∧
        (m2.permanentlyDeleted = m1.permanentlyDeleted ∨
          m2.permanentlyDeleted = true) := by
  intro m2 hm2
  cases hfind : st.members.find? (fun m => m.id == inp.id && m.nwid == inp.nwid) with
  | none =>
    have : (delete env true c w inp st).st.members = st.members := by
      by_cases hc : c = true
      · simp [delete, hfind, hc]
      · have hcf : c = false := by simpa using hc
        simp [delete, hfind, hcf]
    rw [this] at hm2
    exact ⟨m2, hm2, rfl, rfl, rfl, Or.inl rfl⟩
  | some m0 =>
    cases hdel : m0.deleted with
    | true =>
      have : (delete env true c w inp st).st.members =
          st.members.map (fun x =>
            if x.id == inp.id && x.nwid == inp.nwid then { x with permanentlyDeleted := true }
            else x) := by
        simp [delete, hfind, hdel]
      rw [this] at hm2
      obtain ⟨m1, hm1, hfeq⟩ := List.mem_map.mp hm2
      by_cases hk : (m1.id == inp.id && m1.nwid == inp.nwid) = true
      · rw [hk, if_pos rfl] at hfeq
        rw [← hfeq]
        exact ⟨m1, hm1, rfl, rfl, rfl, Or.inr rfl⟩
      · have hkf : (m1.id == inp.id && m1.nwid == inp.nwid) = false := by simpa using hk
        rw [hkf, if_neg Bool.false_ne_true] at hfeq
        rw [← hfeq]
        exact ⟨m1, hm1, rfl, rfl, rfl, Or.inl rfl⟩
    | false =>
      by_cases hc : c = true
      · have : (delete env true c w inp st).st.members =
            st.members.filter (fun x => !(x.id == inp.id && x.nwid == inp.nwid)) := by
          by_cases hw : w = true
          · simp [delete, hfind, hdel, hc, hw]
          · have hwf : w = false := by simpa using hw
            simp [delete, hfind, hdel, hc, hwf]
        rw [this] at hm2
        exact ⟨m2, (List.mem_filter.mp hm2).1, rfl, rfl, rfl, Or.inl rfl⟩
      · have hcf : c = false := by simpa using hc
        have : (delete env true c w inp st).st.members = st.members := by
          simp [delete, hfind, hdel, hcf]
        rw [this] at hm2
        exact ⟨m2, hm2, rfl, rfl, rfl, Or.inl rfl⟩

theorem bulkCore_members (nwid : String) (st : St) :
    (bulkCore nwid st).st.members = bulkMembers nwid st.members := by
  unfold bulkCore
  by_cases hE : (st.members.filter (fun m => m.nwid == nwid && m.deleted == true)).isEmpty
      = true
  · rw [if_pos hE]
    unfold bulkMembers
    rw [if_pos hE]
  · rw [if_neg hE]

theorem bulk_members_shape (env : Env) (r : Bool) (inp : BulkInput) (st : St) :
    (bulkDeleteStashed env r inp st).st.members = st.members ∨
    (bulkDeleteStashed env r inp st).st.members = bulkMembers inp.nwid st.members := by
  unfold bulkDeleteStashed
  rcases horg : inp.organizationId with - | o
  · cases hnet : st.networks.find? (fun n => n.nwid == inp.nwid &&
        n.authorId == some env.userId) with
    | none => left; simp [hnet]
    | some nw => right; simp only [hnet]; exact bulkCore_members inp.nwid st
  · cases r with
    | false => left; simp
    | true =>
      cases hnet : st.networks.find? (fun n => n.nwid == inp.nwid &&
          n.organizationId == some o) with
      | none => left; simp [hnet]
      | some nw => right; simp only [hnet, Bool.not_true, Bool.false_eq_true, if_false]
                   exact bulkCore_members inp.nwid st

theorem bulk_members_rel (env : Env) (r : Bool) (inp : BulkInput) (st : St) :
    ∀ m2 ∈ (bulkDeleteStashed env r inp st).st.members,
      ∃ m1 ∈ st.members, m2.id = m1.id ∧ m2.nwid = m1.nwid ∧
        m2.deleted = m1.deleted ∧
        (m2.permanentlyDeleted = m1.permanentlyDeleted ∨
          m2.permanentlyDeleted = true) := by
  intro m2 hm2
  rcases bulk_members_shape env r inp st with h | h
  · rw [h] at hm2
    exact ⟨m2, hm2, rfl, rfl, rfl, Or.inl rfl⟩
  · rw [h, bulkMembers_eq_map] at hm2
    obtain ⟨m1, hm1, hfeq⟩ := List.mem_map.mp hm2
    by_cases hk : (m1.nwid == inp.nwid && m1.deleted == true) = true
    · rw [hk, if_pos rfl] at hfeq
      rw [← hfeq]
      exact ⟨m1, hm1, rfl, rfl, rfl, Or.inr rfl⟩
    · have hkf : (m1.nwid == inp.nwid && m1.deleted == true) = false := by simpa using hk
      rw [hkf, if_neg Bool.false_ne_true] at hfeq
      rw [← hfeq]
      exact ⟨m1, hm1, rfl, rfl, rfl, Or.inl rfl⟩

/-- C3 (counterexample): `create` on an existing row unconditionally resets
both flags, so the explicit re-add of a PERMANENTLY_DELETED member returns
its row to the active state — the state is not terminal under the listed
lifecycle operations, contradicting the claim. -/
theorem create_reactivates_permanentlyDeleted_row :
    (create plainEnv true true
      { organizationId := none, id := "3333333333", nwid := "n3" } c3St).st.members =
      [{ id := "3333333333", nwid := "n3", authorized := false, deleted := false,
         permanentlyDeleted := false, name := some "zombie", description := none }] := by
  decide

/-- C3 (amended): among the lifecycle operations, `stash`, `delete` and
`bulkDeleteStashed` never return a row to the active state — every surviving
row that was stashed or permanently deleted is still stashed or permanently
deleted, and a permanently deleted row stays permanently deleted; `create`
(explicit re-add), however, re-activates the existing row for its pair
unconditionally, resetting both flags even on a permanently deleted row. -/
theorem permanentlyDeleted_terminal_except_create
    (env : Env) (c iw w r : Bool) (inp : StashInput) (binp : BulkInput)
    (cinp : CreateInput) (st : St)
    (hcreate : (st.members.find?
      (fun m => m.id == cinp.id && m.nwid == cinp.nwid)).isSome = true) :
    (∀ m2 ∈ (stash env true c iw w inp st).st.members,
      ∃ m1 ∈ st.members, m2.id = m1.id ∧ m2.nwid = m1.nwid ∧
        (m1.permanentlyDeleted = true → m2.permanentlyDeleted = true) ∧
        ((m1.deleted = true ∨ m1.permanentlyDeleted = true) →
          (m2.deleted = true ∨ m2.permanentlyDeleted = true))) ∧
    (∀ m2 ∈ (delete env true c w inp st).st.members,
      ∃ m1 ∈ st.members, m2.id = m1.id ∧ m2.nwid = m1.nwid ∧
        (m1.permanentlyDeleted = true → m2.permanentlyDeleted = true) ∧
        ((m1.deleted = true ∨ m1.permanentlyDeleted = true) →
          (m2.deleted = true ∨ m2.permanentlyDeleted = true))) ∧
    (∀ m2 ∈ (bulkDeleteStashed env r binp st).st.members,
      ∃ m1 ∈ st.members, m2.id = m1.id ∧ m2.nwid = m1.nwid ∧
        (m1.permanentlyDeleted = true → m2.permanentlyDeleted = true) ∧
        ((m1.deleted = true ∨ m1.permanentlyDeleted = true) →
          (m2.deleted = true ∨ m2.permanentlyDeleted = true))) ∧
    (∀ m2 ∈ (create env true w cinp st).st.members,
      m2.id = cinp.id → m2.nwid = cinp.nwid →
        m2.deleted = false ∧ m2.permanentlyDeleted = false) := by
  refine ⟨?_, ?_, ?_, ?_⟩
  · obtain ⟨g, hg, hgm⟩ := stash_members_shape env c iw w inp st
    intro m2 hm2
    rw [hgm] at hm2
    obtain ⟨m1, hm1, hfeq⟩ := List.mem_map.mp hm2
    obtain ⟨a1, a2, a3, a4⟩ := hg m1
    rw [← hfeq]
    refine ⟨m1, hm1, a1, a2, fun hp => a3.trans hp, ?_⟩
    intro hd
    rcases hd with hd | hp
    · rcases a4 with ha | ha
      · exact Or.inl (ha.trans hd)
      · exact Or.inl ha
    · exact Or.inr (a3.trans hp)
  · intro m2 hm2
    obtain ⟨m1, hm1, a1, a2, a3, a4⟩ := delete_members_rel env c w inp st m2 hm2
    refine ⟨m1, hm1, a1, a2, ?_, ?_⟩
    · intro hp
      rcases a4 with ha | ha
      · exact ha.trans hp
      · exact ha
    · intro hd
      rcases hd with hd | hp
      · exact Or.inl (a3.trans hd)
      · rcases a4 with ha | ha
        · exact Or.inr (ha.trans hp)
        · exact Or.inr ha
  · intro m2 hm2
    obtain ⟨m1, hm1, a1, a2, a3, a4⟩ := bulk_members_rel env r binp st m2 hm2
    refine ⟨m1, hm1, a1, a2, ?_, ?_⟩
    · intro hp
      rcases a4 with ha | ha
      · exact ha.trans hp
      · exact ha
    · intro hd
      rcases hd with hd | hp
      · exact Or.inl (a3.trans hd)
      · rcases a4 with ha | ha
        · exact Or.inr (ha.trans hp)
        · exact Or.inr ha
  · obtain ⟨member, hfind⟩ := Option.isSome_iff_exists.mp hcreate
    have hm : (create env true w cinp st).st.members =
        st.members.map (fun m =>
          if m.id == cinp.id && m.nwid == cinp.nwid then
            { m with
              deleted := false,
              permanentlyDeleted := false,
              name := existingMemberName env cinp st member }
          else m) := by
      simp [create, hfind]
    intro m2 hm2 hid hnwid
    rw [hm] at hm2
    obtain ⟨m1, hm1, hfeq⟩ := List.mem_map.mp hm2
    by_cases hk : (m1.id == cinp.id && m1.nwid == cinp.nwid) = true
    · rw [hk, if_pos rfl] at hfeq
      rw [← hfeq]
      exact ⟨rfl, rfl⟩
    · have hkf : (m1.id == cinp.id && m1.nwid == cinp.nwid) = false := by simpa using hk
      rw [hkf, if_neg Bool.false_ne_true] at hfeq
      rw [← hfeq] at hid hnwid
      rw [hid, hnwid] at hkf
      simp at hkf

/-- C3 (witness): the amended theorem's `stash` conjunct applied to the
permanently deleted row of `c3St`, instantiated at the concrete surviving
row: it still traces back to a row of `c3St` whose permanent deletion it
preserves. -/
theorem permanentlyDeleted_terminal_except_create_witness :
    ∃ m1 ∈ c3St.members,
      ({ id := "3333333333", nwid := "n3", authorized := false, deleted := true,
         permanentlyDeleted := true, name := some "zombie",
         description := none } : Member).id = m1.id ∧
      ({ id := "3333333333", nwid := "n3", authorized := false, deleted := true,
         permanentlyDeleted := true, name := some "zombie",
         description := none } : Member).nwid = m1.nwid ∧
      (m1.permanentlyDeleted = true →
        ({ id := "3333333333", nwid := "n3", authorized := false, deleted := true,
           permanentlyDeleted := true, name := some "zombie",
           description := none } : Member).permanentlyDeleted = true) ∧
      ((m1.deleted = true ∨ m1.permanentlyDeleted = true) →
        (({ id := "3333333333", nwid := "n3", authorized := false, deleted := true,
            permanentlyDeleted := true, name := some "zombie",
            description := none } : Member).deleted = true ∨
         ({ id := "3333333333", nwid := "n3", authorized := false, deleted := true,
            permanentlyDeleted := true, name := some "zombie",
            description := none } : Member).permanentlyDeleted = true)) :=
  (permanentlyDeleted_terminal_except_create plainEnv true true true true
    { organizationId := none, nwid := "n3", id := "3333333333" }
    { nwid := "n3", organizationId := none }
    { organizationId := none, id := "3333333333", nwid := "n3" } c3St (by decide)).1
    { id := "3333333333", nwid := "n3", authorized := false, deleted := true,
      permanentlyDeleted := true, name := some "zombie", description := none }
    (by decide)

theorem bulk_networks_of_core (nwid : String) (st : St) :
    (bulkCore nwid st).st.networks = st.networks := by
  unfold bulkCore
  by_cases hE : (st.members.filter (fun m => m.nwid == nwid && m.deleted == true)).isEmpty
      = true
  · rw [if_pos hE]
  · rw [if_neg hE]

/-- C5: a successful `bulkDeleteStashed` sets `permanentlyDeleted := true` on
exactly the rows of the given network that have `deleted = true` (every other
row — non-stashed rows and rows of other networks — is returned unchanged,
and rows already permanently deleted are merely re-marked), the network table
is untouched, and the operation is idempotent: running it again on the
resulting state leaves every member row as it was after the first run. -/
theorem bulkDeleteStashed_exact_idempotent (env : Env) (r : Bool) (inp : BulkInput)
    (st : St) (h : (bulkDeleteStashed env r inp st).error = none) :
    (bulkDeleteStashed env r inp st).st.members =
      st.members.map (fun m =>
        if m.nwid == inp.nwid && m.deleted == true then { m with permanentlyDeleted := true }
        else m) ∧
    (bulkDeleteStashed env r inp st).st.networks = st.networks ∧
    (bulkDeleteStashed env r inp (bulkDeleteStashed env r inp st).st).st.members =
      (bulkDeleteStashed env r inp st).st.members := by
  rcases horg : inp.organizationId with - | o
  · cases hnet : st.networks.find? (fun n => n.nwid == inp.nwid &&
        n.authorId == some env.userId) with
    | none => rw [bulkDeleteStashed, horg, hnet] at h; cases h
    | some nw =>
      have hco : bulkDeleteStashed env r inp st = bulkCore inp.nwid st := by
        rw [bulkDeleteStashed, horg, hnet]
      have hmem1 : (bulkDeleteStashed env r inp st).st.members =
          bulkMembers inp.nwid st.members := by
        rw [hco]; exact bulkCore_members _ _
      have hnets : (bulkDeleteStashed env r inp st).st.networks = st.networks := by
        rw [hco]; exact bulk_networks_of_core _ _
      refine ⟨by rw [hmem1, bulkMembers_eq_map], hnets, ?_⟩
      have hnet2 : (bulkDeleteStashed env r inp st).st.networks.find?
          (fun n => n.nwid == inp.nwid && n.authorId == some env.userId) = some nw := by
        rw [hnets]; exact hnet
      have hco2 : bulkDeleteStashed env r inp (bulkDeleteStashed env r inp st).st =
          bulkCore inp.nwid (bulkDeleteStashed env r inp st).st := by
        rw [bulkDeleteStashed, horg, hnet2]
      rw [hco2, bulkCore_members, hmem1, bulkMembers_idem]
  · cases r with
    | false => rw [bulkDeleteStashed, horg] at h; cases h
    | true =>
      cases hnet : st.networks.find? (fun n => n.nwid == inp.nwid &&
          n.organizationId == some o) with
      | none =>
        rw [bulkDeleteStashed, horg] at h
        simp only [Bool.not_true, Bool.false_eq_true, if_false, hnet] at h
        cases h
      | some nw =>
        have hco : bulkDeleteStashed env true inp st = bulkCore inp.nwid st := by
          rw [bulkDeleteStashed, horg]
          simp only [Bool.not_true, Bool.false_eq_true, if_false, hnet]
        have hmem1 : (bulkDeleteStashed env true inp st).st.members =
            bulkMembers inp.nwid st.members := by
          rw [hco]; exact bulkCore_members _ _
        have hnets : (bulkDeleteStashed env true inp st).st.networks = st.networks := by
          rw [hco]; exact bulk_networks_of_core _ _
        refine ⟨by rw [hmem1, bulkMembers_eq_map], hnets, ?_⟩
        have hnet2 : (bulkDeleteStashed env true inp st).st.networks.find?
            (fun n => n.nwid == inp.nwid && n.organizationId == some o) = some nw := by
          rw [hnets]; exact hnet
        have hco2 : bulkDeleteStashed env true inp (bulkDeleteStashed env true inp st).st =
            bulkCore inp.nwid (bulkDeleteStashed env true inp st).st := by
          rw [bulkDeleteStashed, horg]
          simp only [Bool.not_true, Bool.false_eq_true, if_false, hnet2]
        rw [hco2, bulkCore_members, hmem1, bulkMembers_idem]

/-- C5 (witness): the theorem applied to `c5St` — the two stashed members of
`n5` (one of them already permanently deleted) are marked, the active member
of `n5` and the stashed member of `n6` are unchanged, and a second run is a
no-op. -/
theorem bulkDeleteStashed_exact_idempotent_witness :
    (bulkDeleteStashed plainEnv true { nwid := "n5", organizationId := none } c5St).st.members =
      c5St.members.map (fun m =>
        if m.nwid == "n5" && m.deleted == true then { m with permanentlyDeleted := true }
        else m) ∧
    (bulkDeleteStashed plainEnv true { nwid := "n5", organizationId := none } c5St).st.networks =
      c5St.networks ∧
    (bulkDeleteStashed plainEnv true { nwid := "n5", organizationId := none }
      (bulkDeleteStashed plainEnv true { nwid := "n5", organizationId := none }
        c5St).st).st.members =
      (bulkDeleteStashed plainEnv true { nwid := "n5", organizationId := none }
        c5St).st.members :=
  bulkDeleteStashed_exact_idempotent plainEnv true { nwid := "n5", organizationId := none }
    c5St (by decide)

/-- C9: in `stash`, the controller de-authorization (`authorized := false`
with `ipAssignments`, `tags`, `capabilities` cleared) is attempted strictly
before the database write that sets `deleted := true`, and whatever the
outcome of the controller call (or of the inner webhook), the member's row
ends with `deleted = true`. -/
theorem stash_deauthorize_then_db (env : Env) (c iw w : Bool) (inp : StashInput) (st : St)
    (hnet : (st.networks.any (fun n => n.nwid == inp.nwid)) = true) :
    (∀ m ∈ (stash env true c iw w inp st).st.members,
      m.id = inp.id → m.nwid = inp.nwid → m.deleted = true) ∧
    (∃ pre post, (stash env true c iw w inp st).events =
        pre ++ Event.dbStash inp.nwid inp.id :: post ∧
      Event.ctrlUpdate inp.nwid inp.id stashUpdateParams ∈ pre) := by
  have hnet2 : ((Update env true c iw
      { nwid := inp.nwid, memberId := inp.id, organizationId := inp.organizationId,
        updateParams := stashUpdateParams } st).st.networks.any
        (fun n => n.nwid == inp.nwid)) = true := by
    rw [update_networks]; exact hnet
  constructor
  · have hmemb : (stash env true c iw w inp st).st.members =
        ((Update env true c iw
          { nwid := inp.nwid, memberId := inp.id, organizationId := inp.organizationId,
            updateParams := stashUpdateParams } st).st.members).map
              (stashDbF inp.id inp.nwid) := by
      by_cases hw : w = true
      · simp [stash, hnet2, hw]
      · have hwf : w = false := by simpa using hw
        simp [stash, hnet2, hwf]
    intro m hm hid hnwid
    rw [hmemb] at hm
    obtain ⟨m1, hm1, hfeq⟩ := List.mem_map.mp hm
    by_cases hk : (m1.id == inp.id && m1.nwid == inp.nwid) = true
    · rw [stashDbF, hk, if_pos rfl] at hfeq
      rw [← hfeq]
    · have hkf : (m1.id == inp.id && m1.nwid == inp.nwid) = false := by simpa using hk
      rw [stashDbF, hkf, if_neg Bool.false_ne_true] at hfeq
      rw [← hfeq] at hid hnwid
      rw [hid, hnwid] at hkf
      simp at hkf
  · refine ⟨Event.activityLog :: (Update env true c iw
      { nwid := inp.nwid, memberId := inp.id, organizationId := inp.organizationId,
        updateParams := stashUpdateParams } st).events,
      [Event.webhook "MEMBER_CONFIG_CHANGED"], ?_, ?_⟩
    · by_cases hw : w = true
      · simp [stash, hnet2, hw]
      · have hwf : w = false := by simpa using hw
        simp [stash, hnet2, hwf]
    · exact List.mem_cons_of_mem _ (update_ctrl_event_mem env c iw
        { nwid := inp.nwid, memberId := inp.id, organizationId := inp.organizationId,
          updateParams := stashUpdateParams } st rfl)

/-- C9 (witness): stashing the active member of `c9St` with a failing
controller call still ends with its row stashed, and the trace shows the
de-authorization attempt before the database write. -/
theorem stash_deauthorize_then_db_witness :
    (∀ m ∈ (stash plainEnv true false true true
        { organizationId := none, nwid := "n9", id := "9999999999" } c9St).st.members,
      m.id = "9999999999" → m.nwid = "n9" → m.deleted = true) ∧
    (∃ pre post, (stash plainEnv true false true true
        { organizationId := none, nwid := "n9", id := "9999999999" } c9St).events =
        pre ++ Event.dbStash "n9" "9999999999" :: post ∧
      Event.ctrlUpdate "n9" "9999999999" stashUpdateParams ∈ pre) :=
  stash_deauthorize_then_db plainEnv false true true
    { organizationId := none, nwid := "n9", id := "9999999999" } c9St (by decide)

/-- C7 (counterexample): in `create`'s new-member path the `NETWORK_JOIN`
webhook is attempted before the database insert — the successful run's trace
shows the webhook event strictly before the member-create event, so
notifications are not attempted only after the primary state change has
committed. -/
theorem create_webhook_before_insert :
    (create plainEnv true true
      { organizationId := none, id := "7777700000", nwid := "n7" } c7St).error = none ∧
    (create plainEnv true true
      { organizationId := none, id := "7777700000", nwid := "n7" } c7St).events =
      [Event.activityLog, Event.webhook "NETWORK_JOIN",
       Event.dbMemberCreate "n7" "7777700000"] := by
  decide

/-- C7 (amended): notification failures never roll back a committed state
change — the post-state of `Update`, `stash` and `delete` is identical
whether their webhooks (and `stash`'s inner webhook) succeed or fail, and
`create`'s existing-member path involves no webhook at all — but a webhook
failure does fail the reported result, and in `create`'s new-member path the
webhook runs before the insert, so its failure aborts the operation with no
row created. -/
theorem notification_failures_amended (env : Env) (c iw1 iw2 w1 w2 : Bool)
    (uinp : UpdateInput) (cinp : CreateInput) (sinp : StashInput) (st : St) :
    (Update env true c w1 uinp st).st = (Update env true c w2 uinp st).st ∧
    ((st.members.find? (fun m => m.id == cinp.id && m.nwid == cinp.nwid)).isSome = true →
      create env true w1 cinp st = create env true w2 cinp st) ∧
    (st.members.find? (fun m => m.id == cinp.id && m.nwid == cinp.nwid) = none →
      (create env true false cinp st).st = st ∧
      (create env true false cinp st).error = some "Failed to send webhook") ∧
    (stash env true c iw1 w1 sinp st).st = (stash env true c iw2 w2 sinp st).st ∧
    (delete env true c w1 sinp st).st = (delete env true c w2 sinp st).st := by
  refine ⟨update_st_webhook_indep env true c w1 w2 uinp st, ?_, ?_, ?_, ?_⟩
  · intro h
    obtain ⟨member, hfind⟩ := Option.isSome_iff_exists.mp h
    simp [create, hfind]
  · intro hfind
    constructor
    · simp [create, hfind]
    · simp [create, hfind]
  · have hst := update_st_webhook_indep env true c iw1 iw2
      { nwid := sinp.nwid, memberId := sinp.id, organizationId := sinp.organizationId,
        updateParams := stashUpdateParams } st
    by_cases hnet : ((Update env true c iw1
        { nwid := sinp.nwid, memberId := sinp.id, organizationId := sinp.organizationId,
          updateParams := stashUpdateParams } st).st.networks.any
          (fun n => n.nwid == sinp.nwid)) = true
    · have hnet2 : ((Update env true c iw2
          { nwid := sinp.nwid, memberId := sinp.id, organizationId := sinp.organizationId,
            updateParams := stashUpdateParams } st).st.networks.any
            (fun n => n.nwid == sinp.nwid)) = true := by
        rw [← congrArg St.networks hst]; exact hnet
      have e1 : (stash env true c iw1 w1 sinp st).st =
          { (Update env true c iw1
            { nwid := sinp.nwid, memberId := sinp.id, organizationId := sinp.organizationId,
              updateParams := stashUpdateParams } st).st with
            members := ((Update env true c iw1
              { nwid := sinp.nwid, memberId := sinp.id,
                organizationId := sinp.organizationId,
                updateParams := stashUpdateParams } st).st.members).map
                  (stashDbF sinp.id sinp.nwid) } := by
        by_cases hw : w1 = true
        · simp [stash, hnet, hw]
        · have hwf : w1 = false := by simpa using hw
          simp [stash, hnet, hwf]
      have e2 : (stash env true c iw2 w2 sinp st).st =
          { (Update env true c iw2
            { nwid := sinp.nwid, memberId := sinp.id, organizationId := sinp.organizationId,
              updateParams := stashUpdateParams } st).st with
            members := ((Update env true c iw2
              { nwid := sinp.nwid, memberId := sinp.id,
                organizationId := sinp.organizationId,
                updateParams := stashUpdateParams } st).st.members).map
                  (stashDbF sinp.id sinp.nwid) } := by
        by_cases hw : w2 = true
        · simp [stash, hnet2, hw]
        · have hwf : w2 = false := by simpa using hw
          simp [stash, hnet2, hwf]
      rw [e1, e2, hst]
    · have hnetf : ((Update env true c iw1
          { nwid := sinp.nwid, memberId := sinp.id, organizationId := sinp.organizationId,
            updateParams := stashUpdateParams } st).st.networks.any
            (fun n => n.nwid == sinp.nwid)) = false := by simpa using hnet
      have hnet2f : ((Update env true c iw2
          { nwid := sinp.nwid, memberId := sinp.id, organizationId := sinp.organizationId,
            updateParams := stashUpdateParams } st).st.networks.any
            (fun n => n.nwid == sinp.nwid)) = false := by
        rw [← congrArg St.networks hst]; exact hnetf
      have e1 : (stash env true c iw1 w1 sinp st).st =
          (Update env true c iw1
            { nwid := sinp.nwid, memberId := sinp.id, organizationId := sinp.organizationId,
              updateParams := stashUpdateParams } st).st := by
        by_cases hw : w1 = true
        · simp [stash, hnetf, hw]
        · have hwf : w1 = false := by simpa using hw
          simp [stash, hnetf, hwf]
      have e2 : (stash env true c iw2 w2 sinp st).st =
          (Update env true c iw2
            { nwid := sinp.nwid, memberId := sinp.id, organizationId := sinp.organizationId,
              updateParams := stashUpdateParams } st).st := by
        by_cases hw : w2 = true
        · simp [stash, hnet2f, hw]
        · have hwf : w2 = false := by simpa using hw
          simp [stash, hnet2f, hwf]
      rw [e1, e2, hst]
  · cases hfind : st.members.find? (fun m => m.id == sinp.id && m.nwid == sinp.nwid) with
    | none =>
      by_cases hc : c = true
      · simp [delete, hfind, hc]
      · have hcf : c = false := by simpa using hc
        simp [delete, hfind, hcf]
    | some m0 =>
      cases hdel : m0.deleted with
      | true => simp [delete, hfind, hdel]
      | false =>
        by_cases hc : c = true
        · by_cases hw1 : w1 = true <;> by_cases hw2 : w2 = true <;>
            simp_all [delete, hfind, hdel, hc]
        · have hcf : c = false := by simpa using hc
          simp [delete, hfind, hdel, hcf]

/-- C7 (witness): applying the amended theorem — on `c7St`, where member
`7770000000` has no row, the failing-webhook `create` leaves the state
untouched and reports the webhook error; its `stash`/`delete` conjuncts are
instantiated alongside. -/
theorem notification_failures_amended_witness :
    (create plainEnv true false
      { organizationId := none, id := "7770000000", nwid := "n7" } c7St).st = c7St ∧
    (create plainEnv true false
      { organizationId := none, id := "7770000000", nwid := "n7" } c7St).error =
      some "Failed to send webhook" :=
  (notification_failures_amended plainEnv true true true true false
    { nwid := "n7", memberId := "7770000000", organizationId := none, updateParams := {} }
    { organizationId := none, id := "7770000000", nwid := "n7" }
    { organizationId := none, nwid := "n7", id := "7770000000" } c7St).2.2.1 rfl

/-- C8 (counterexample): an `Update` whose `ipAssignments` contains an
invalid address is rejected — but only after the global-rename fan-out has
run: with global naming on, the error is returned while the other network's
database row has already been renamed and its controller has already been
called (with the invalid `ipAssignments` forwarded), so state *was* modified
when the error returned. -/
theorem update_fanout_before_ip_validation :
    (Update renameBadIpEnv true true true c8Inp c8St).error =
      some "Invalid IP addresses provided" ∧
    (Update renameBadIpEnv true true true c8Inp c8St).st.members ≠ c8St.members ∧
    Event.ctrlUpdate "n82" "8888888888" c8Inp.updateParams ∈
      (Update renameBadIpEnv true true true c8Inp c8St).events := by
  decide

/-- C8 (amended): an `Update` carrying an invalid `ipAssignments` entry is
rejected with the validation error before any change to the *edited*
network: every member row of the edited network is still present unchanged
and no controller call targeted the edited network — but the global-rename
fan-out to other networks (when it triggers) has already run when the error
is returned. -/
theorem invalid_ip_rejected_before_current_change (env : Env) (c w : Bool)
    (inp : UpdateInput) (st : St)
    (hbad : invalidIPs env.validIP inp.updateParams.ipAssignments ≠ []) :
    (Update env true c w inp st).error = some "Invalid IP addresses provided" ∧
    (∀ m ∈ st.members, m.nwid = inp.nwid → m ∈ (Update env true c w inp st).st.members) ∧
    (∀ n i p, Event.ctrlUpdate n i p ∈ (Update env true c w inp st).events →
      n ≠ inp.nwid) := by
  have hE : (invalidIPs env.validIP inp.updateParams.ipAssignments).isEmpty = false := by
    cases hbadl : invalidIPs env.validIP inp.updateParams.ipAssignments with
    | nil => exact absurd hbadl hbad
    | cons a t => rfl
  have hred : Update env true c w inp st =
      { st := { st with members := (fanoutPhase env inp st).1 },
        events := Event.activityLog :: (fanoutPhase env inp st).2,
        error := some "Invalid IP addresses provided" } := by
    simp [Update, updatePre, hE]
  refine ⟨by rw [hred], ?_, ?_⟩
  · intro m hm hnw
    rw [hred]
    exact fanoutPhase_members_mem env inp st m hm hnw
  · intro n i p he
    rw [hred] at he
    rcases List.mem_cons.mp he with h | h
    · exact Event.noConfusion h
    · exact fanoutPhase_ctrl_ne env inp st n i p h

/-- C8 (witness): the amended theorem applied to `c8Inp` on `c8St` with the
all-rejecting IP validator. -/
theorem invalid_ip_rejected_before_current_change_witness :
    (Update renameBadIpEnv true true true c8Inp c8St).error =
      some "Invalid IP addresses provided" ∧
    (∀ m ∈ c8St.members, m.nwid = "n81" →
      m ∈ (Update renameBadIpEnv true true true c8Inp c8St).st.members) ∧
    (∀ n i p, Event.ctrlUpdate n i p ∈
        (Update renameBadIpEnv true true true c8Inp c8St).events → n ≠ "n81") :=
  invalid_ip_rejected_before_current_change renameBadIpEnv true true c8Inp c8St (by decide)

theorem update_members_shape_of_role (env : Env) (c w : Bool) (inp : UpdateInput)
    (st : St) :
    (Update env true c w inp st).st.members = (fanoutPhase env inp st).1 ∨
    (Update env true c w inp st).st.members =
      ((fanoutPhase env inp st).1).map (currentDbUpdateF inp) := by
  rw [update_st_eq]
  unfold updatePre
  have h1f : (inp.organizationId.isSome && !true) = false := by simp
  by_cases h2 : (invalidIPs env.validIP inp.updateParams.ipAssignments).isEmpty = true
  · by_cases h3 : c = true
    · cases h4 : (fanoutPhase env inp st).1.find?
          (fun m => m.id == inp.memberId && m.nwid == inp.nwid) with
      | none => left; simp [h1f, h2, h3, h4]
      | some m0 =>
        by_cases h5 : (inp.updateParams.name.isSome || inp.updateParams.authorized.isSome ||
            inp.updateParams.description.isSome) = true
        · right; simp [h1f, h2, h3, h4, h5]
        · have h5f : (inp.updateParams.name.isSome || inp.updateParams.authorized.isSome ||
              inp.updateParams.description.isSome) = false := by simpa using h5
          left; simp [h1f, h2, h3, h4, h5f]
    · have h3f : c = false := by simpa using h3
      left; simp [h1f, h2, h3f]
  · have h2f : (invalidIPs env.validIP inp.updateParams.ipAssignments).isEmpty = false := by
      simpa using h2
    left; simp [h1f, h2f]

/-- C6: scope of a renaming `Update` (a call whose `updateParams.name` is a
non-empty string).  With the applicable global-naming setting off (the user's
`renameNodeGlobally` for personal networks, the organization's setting for
organization networks) only the edited network is touched: every member row
of any other network survives unchanged and every controller call targets
the edited network.  With the setting on, the new name is written — through
a controller call and a database update — to every other network of the same
ownership scope that contains a non-stashed row of the member, the edited
network being handled by the normal path. -/
theorem update_global_rename_scope (env : Env) (ctrlOk webhookOk : Bool)
    (inp : UpdateInput) (st : St) (s : String)
    (hname : inp.updateParams.name = some s) (hs : (s == "") = false) :
    (inp.organizationId = none → env.userOptions.renameNodeGlobally = false →
      (∀ m ∈ st.members, m.nwid ≠ inp.nwid →
        m ∈ (Update env true ctrlOk webhookOk inp st).st.members) ∧
      (∀ n i p, Event.ctrlUpdate n i p ∈
        (Update env true ctrlOk webhookOk inp st).events → n = inp.nwid)) ∧
    (∀ orgId, inp.organizationId = some orgId →
      (orgSettingFind env.orgSettings orgId).getD false = false →
      (∀ m ∈ st.members, m.nwid ≠ inp.nwid →
        m ∈ (Update env true ctrlOk webhookOk inp st).st.members) ∧
      (∀ n i p, Event.ctrlUpdate n i p ∈
        (Update env true ctrlOk webhookOk inp st).events → n = inp.nwid)) ∧
    (inp.organizationId = none → env.userOptions.renameNodeGlobally = true →
      ∀ m ∈ st.members, m.id = inp.memberId → m.deleted = false → m.nwid ≠ inp.nwid →
        networkRefPersonal st env.userId m = true →
        Event.ctrlUpdate m.nwid inp.memberId inp.updateParams ∈
          (Update env true ctrlOk webhookOk inp st).events ∧
        ∃ m2 ∈ (Update env true ctrlOk webhookOk inp st).st.members,
          m2.id = m.id ∧ m2.nwid = m.nwid ∧ m2.name = some s) ∧
    (∀ orgId, inp.organizationId = some orgId →
      (orgSettingFind env.orgSettings orgId).getD false = true →
      ∀ m ∈ st.members, m.id = inp.memberId → m.deleted = false → m.nwid ≠ inp.nwid →
        networkRefOrg st orgId m = true →
        Event.ctrlUpdate m.nwid inp.memberId inp.updateParams ∈
          (Update env true ctrlOk webhookOk inp st).events ∧
        ∃ m2 ∈ (Update env true ctrlOk webhookOk inp st).st.members,
          m2.id = m.id ∧ m2.nwid = m.nwid ∧ m2.name = some s) := by
  have hdisabled : fanoutPhase env inp st = (st.members, []) →
      (∀ m ∈ st.members, m.nwid ≠ inp.nwid →
        m ∈ (Update env true ctrlOk webhookOk inp st).st.members) ∧
      (∀ n i p, Event.ctrlUpdate n i p ∈
        (Update env true ctrlOk webhookOk inp st).events → n = inp.nwid) := by
    intro hfan
    constructor
    · intro m hm hneq
      rcases update_members_shape_of_role env ctrlOk webhookOk inp st with h | h
      · rw [h, hfan]
        exact hm
      · rw [h, hfan]
        have hfix : currentDbUpdateF inp m = m := by
          unfold currentDbUpdateF
          have hk : (m.id == inp.memberId && m.nwid == inp.nwid) = false := by
            have : (m.nwid == inp.nwid) = false := beq_false_of_ne hneq
            rw [this, Bool.and_false]
          rw [hk, if_neg Bool.false_ne_true]
        rw [← hfix]
        exact List.mem_map_of_mem _ hm
    · intro n i p he
      obtain ⟨tail, hev, htail⟩ := update_events_shape env ctrlOk webhookOk inp st
      rw [hev, hfan] at he
      rcases List.mem_cons.mp he with h | h
      · exact Event.noConfusion h
      · exact (htail n i p (by simpa using h)).1
  have henabled : ∀ (targets : List String) (withDesc : Bool),
      fanoutPhase env inp st =
        applyFanout inp.memberId inp.updateParams withDesc targets st.members →
      ∀ m ∈ st.members, m.nwid ∈ targets → m.id = inp.memberId → m.deleted = false →
        m.nwid ≠ inp.nwid →
        Event.ctrlUpdate m.nwid inp.memberId inp.updateParams ∈
          (Update env true ctrlOk webhookOk inp st).events ∧
        ∃ m2 ∈ (Update env true ctrlOk webhookOk inp st).st.members,
          m2.id = m.id ∧ m2.nwid = m.nwid ∧ m2.name = some s := by
    intro targets withDesc hfan m hm htarget hid hdel hneq
    have hcond : (m.id == inp.memberId && m.deleted == false &&
        targets.contains m.nwid) = true := by
      rw [beq_iff_eq.mpr hid, (contains_iff_mem targets m.nwid).mpr htarget, hdel]
      rfl
    constructor
    · obtain ⟨tail, hev, htail⟩ := update_events_shape env ctrlOk webhookOk inp st
      rw [hev, hfan]
      refine List.mem_cons_of_mem _ (List.mem_append.mpr (Or.inl ?_))
      exact applyFanout_events_mem inp.memberId inp.updateParams withDesc htarget st.members
    · have hfa : (fanoutPhase env inp st).1 =
          st.members.map (fanoutF inp.memberId inp.updateParams withDesc targets) := by
        rw [hfan]
        exact applyFanout_members _ _ _ _ _
      have ha : fanoutF inp.memberId inp.updateParams withDesc targets m =
          { m with
            name := inp.updateParams.name,
            description :=
              if withDesc && inp.updateParams.description.isSome then
                inp.updateParams.description
              else m.description } := by
        unfold fanoutF
        rw [hcond, if_pos rfl]
      rcases update_members_shape_of_role env ctrlOk webhookOk inp st with h | h
      · refine ⟨fanoutF inp.memberId inp.updateParams withDesc targets m, ?_, ?_, ?_, ?_⟩
        · rw [h, hfa]
          exact List.mem_map_of_mem _ hm
        · exact (fanoutF_keyFlags _ _ _ _ m).1
        · exact (fanoutF_keyFlags _ _ _ _ m).2.1
        · rw [ha]
          exact hname
      · refine ⟨currentDbUpdateF inp
          (fanoutF inp.memberId inp.updateParams withDesc targets m), ?_, ?_, ?_, ?_⟩
        · rw [h, hfa, List.map_map]
          exact List.mem_map_of_mem _ hm
        · exact ((currentDbUpdateF_keyFlags inp _).1).trans (fanoutF_keyFlags _ _ _ _ m).1
        · exact ((currentDbUpdateF_keyFlags inp _).2.1).trans
            (fanoutF_keyFlags _ _ _ _ m).2.1
        · have hfix : currentDbUpdateF inp
              (fanoutF inp.memberId inp.updateParams withDesc targets m) =
              fanoutF inp.memberId inp.updateParams withDesc targets m := by
            unfold currentDbUpdateF
            have hk : ((fanoutF inp.memberId inp.updateParams withDesc targets m).id ==
                inp.memberId &&
                (fanoutF inp.memberId inp.updateParams withDesc targets m).nwid ==
                inp.nwid) = false := by
              rw [(fanoutF_keyFlags _ _ _ _ m).2.1, beq_false_of_ne hneq, Bool.and_false]
            rw [hk, if_neg Bool.false_ne_true]
          rw [hfix, ha]
          exact hname
  refine ⟨?_, ?_, ?_, ?_⟩
  · intro horg hrng
    exact hdisabled (fanoutPhase_disabled_personal env inp st horg hrng)
  · intro orgId horg hset
    exact hdisabled (fanoutPhase_disabled_org env inp st orgId horg hset)
  · intro horg hrng m hm hid hdel hneq href
    have hpred : (m.id == inp.memberId && m.deleted == false && !(m.nwid == inp.nwid) &&
        networkRefPersonal st env.userId m) = true := by
      rw [beq_iff_eq.mpr hid, hdel, beq_false_of_ne hneq, href]
      rfl
    have htarget : m.nwid ∈ personalFanoutTargets st env.userId inp.memberId inp.nwid := by
      unfold personalFanoutTargets
      exact List.mem_map_of_mem _ (List.mem_filter.mpr ⟨hm, hpred⟩)
    exact henabled _ true
      (fanoutPhase_enabled_personal env inp st s hname hs horg hrng) m hm htarget hid
      hdel hneq
  · intro orgId horg hset m hm hid hdel hneq href
    have hpred : (m.id == inp.memberId && m.deleted == false && !(m.nwid == inp.nwid) &&
        networkRefOrg st orgId m) = true := by
      rw [beq_iff_eq.mpr hid, hdel, beq_false_of_ne hneq, href]
      rfl
    have htarget : m.nwid ∈ orgFanoutTargets st orgId inp.memberId inp.nwid := by
      unfold orgFanoutTargets
      exact List.mem_map_of_mem _ (List.mem_filter.mpr ⟨hm, hpred⟩)
    exact henabled _ false
      (fanoutPhase_enabled_org env inp st s orgId hname hs horg hset) m hm htarget hid
      hdel hneq

/-- C6 (witness): renaming member `6666666666` on `n61` with global naming
on issues a controller call for `n62` and leaves `n62`'s database row
renamed to `desktop`. -/
theorem update_global_rename_scope_witness :
    Event.ctrlUpdate "n62" "6666666666" c6Inp.updateParams ∈
      (Update renameEnv true true true c6Inp c6St).events ∧
    ∃ m2 ∈ (Update renameEnv true true true c6Inp c6St).st.members,
      m2.id = "6666666666" ∧ m2.nwid = "n62" ∧ m2.name = some "desktop" :=
  (update_global_rename_scope renameEnv true true c6Inp c6St "desktop" rfl rfl).2.2.1
    rfl rfl
    { id := "6666666666", nwid := "n62", authorized := true, deleted := false,
      permanentlyDeleted := false, name := some "laptop", description := none }
    (by decide) rfl rfl (by decide) (by decide)

/-- C10 (counterexample): `getUserNetworks` counts a member row with
`permanentlyDeleted = true` in both figures when that row has
`deleted = false` — its only filter is on `deleted` — so permanently-deleted
members are not always excluded from the counts. -/
theorem memberCounts_counts_permanentlyDeleted :
    getUserNetworks c10St "u1" =
      [({ nwid := "n10", authorId := some "u1", organizationId := none },
        { authorized := 1, total := 1, display := "1 (1)" })] ∧
    ∀ m ∈ c10St.members, m.permanentlyDeleted = true := by
  decide

/-- C10 (amended): for every network returned by `getUserNetworks`, the
`authorized` figure counts exactly the network's rows with
`authorized = true` and `deleted = false`, `total` counts the rows with
`deleted = false`, the display string is exactly `authorized (total)` and
`authorized ≤ total`; stashed rows are counted in neither figure, and
permanently-deleted rows are counted in neither *provided* every
permanently-deleted row of the network is also stashed (the invariant the
lifecycle maintains) — a row with `permanentlyDeleted = true` but
`deleted = false` is counted. -/
theorem memberCounts_spec (st : St) (userId : String) :
    ∀ p ∈ getUserNetworks st userId,
      p.2.authorized = ((st.members.filter (fun m => m.nwid == p.1.nwid)).filter
        (fun m => m.authorized && !m.deleted)).length ∧
      p.2.total = ((st.members.filter (fun m => m.nwid == p.1.nwid)).filter
        (fun m => !m.deleted)).length ∧
      p.2.display = toString p.2.authorized ++ " (" ++ toString p.2.total ++ ")" ∧
      p.2.authorized ≤ p.2.total ∧
      ((∀ m ∈ st.members, m.nwid = p.1.nwid → m.permanentlyDeleted = true →
          m.deleted = true) →
        p.2.total = ((st.members.filter (fun m => m.nwid == p.1.nwid)).filter
          (fun m => !m.deleted && !m.permanentlyDeleted)).length ∧
        p.2.authorized = ((st.members.filter (fun m => m.nwid == p.1.nwid)).filter
          (fun m => m.authorized && (!m.deleted && !m.permanentlyDeleted))).length) := by
  intro p hp
  obtain ⟨n, hn, hfp⟩ := List.mem_map.mp hp
  subst hfp
  refine ⟨rfl, rfl, rfl, ?_, ?_⟩
  · show ((st.members.filter (fun m => m.nwid == n.nwid)).filter
        (fun m => m.authorized && !m.deleted)).length ≤
      ((st.members.filter (fun m => m.nwid == n.nwid)).filter
        (fun m => !m.deleted)).length
    have h := List.length_filter_le (fun m : Member => m.authorized)
      ((st.members.filter (fun m => m.nwid == n.nwid)).filter (fun m => !m.deleted))
    rw [List.filter_filter] at h
    simpa using h
  · intro hInv
    have hrows : ∀ m ∈ st.members.filter (fun m => m.nwid == n.nwid),
        m.permanentlyDeleted = true → m.deleted = true := by
      intro m hm hpd
      have hmem := List.mem_filter.mp hm
      exact hInv m hmem.1 (beq_iff_eq.mp hmem.2) hpd
    constructor
    · show ((st.members.filter (fun m => m.nwid == n.nwid)).filter
          (fun m => !m.deleted)).length = _
      have heq : (st.members.filter (fun m => m.nwid == n.nwid)).filter
          (fun m => !m.deleted) =
        (st.members.filter (fun m => m.nwid == n.nwid)).filter
          (fun m => !m.deleted && !m.permanentlyDeleted) := by
        apply List.filter_congr
        intro m hm
        cases hdel : m.deleted with
        | true => simp
        | false =>
          have hpd : m.permanentlyDeleted = false := by
            cases hpdc : m.permanentlyDeleted with
            | false => rfl
            | true => rw [hrows m hm hpdc] at hdel; cases hdel
          simp [hpd]
      rw [heq]
    · show ((st.members.filter (fun m => m.nwid == n.nwid)).filter
          (fun m => m.authorized && !m.deleted)).length = _
      have heq : (st.members.filter (fun m => m.nwid == n.nwid)).filter
          (fun m => m.authorized && !m.deleted) =
        (st.members.filter (fun m => m.nwid == n.nwid)).filter
          (fun m => m.authorized && (!m.deleted && !m.permanentlyDeleted)) := by
        apply List.filter_congr
        intro m hm
        cases hdel : m.deleted with
        | true => simp
        | false =>
          have hpd : m.permanentlyDeleted = false := by
            cases hpdc : m.permanentlyDeleted with
            | false => rfl
            | true => rw [hrows m hm hpdc] at hdel; cases hdel
          simp [hpd]
      rw [heq]

/-- C10 (witness): the amended theorem applied to the well-formed roster of
`c10StW` — one authorized active member, `total` 2, stashed and permanently
deleted rows excluded under the invariant. -/
theorem memberCounts_spec_witness :
    (1 : Nat) ≤ 2 ∧
    (2 : Nat) = ((c10StW.members.filter (fun m => m.nwid == "n11")).filter
      (fun m => !m.deleted && !m.permanentlyDeleted)).length := by
  have h := memberCounts_spec c10StW "u1"
    ({ nwid := "n11", authorId := some "u1", organizationId := none },
     { authorized := 1, total := 2, display := "1 (2)" }) (by decide)
  exact ⟨h.2.2.2.1, (h.2.2.2.2 (by decide)).1⟩

end ZtNet
